import Mathlib

/-!
# Verification of the QED task-form reconciliation engine

A shallow embedding, in Lean 4, of the value-aggregation, form-population,
headline-reclassification, permission, variable-decoding and dashboard logic of
`qed_utility/views/tasks.py` and `qed_utility/views/dashboard.py`, together
with proofs and refutations of the specification's claims about them.

Modelling conventions:
* Python scalars are `PyVal` (`str`, `int`, `bool`, `None`); Python floats are
  not exercised by any claim and numeric DB columns are modelled as integers.
* Python dicts used as value maps are association lists with Python-dict
  semantics (`setKey` replaces in place, preserving insertion order, or
  appends; `getKey` looks up the unique binding).
* A form field's `"value"` entry is a `PyVal`; an absent entry and an entry
  holding `None` are collapsed to `PyVal.vnone` (the code never distinguishes
  them: every access is `field.get("value")` / truthiness, and the single
  `field.get("value", "")` occurrence only feeds a substring test on
  `"option 1"`, which matches neither `""` nor `"None"`).
* SQL `NULL`-able columns are `Option`-typed; SQL equality with `NULL` is
  never true (`sqlEqS`); Python truthiness of an optional string treats both
  `None` and `""` as false, while `datetime` columns are truthy iff non-NULL.
* Timestamp-to-date conversion (`datetime.fromtimestamp`) is modelled over
  UTC with the proleptic-Gregorian civil-from-days algorithm, guarded to
  return `none` outside `datetime`'s supported range (where the Python call
  raises).
-/

namespace QED

/-- A Python scalar value: `str`, `int`, `bool` (a distinct constructor even
though Python's `bool` is an `int` subclass; the embedding branches treat it
as `int` where `isinstance(v, int)` would), or `None`. -/
inductive PyVal : Type where
  | vstr (s : String)
  | vint (n : Int)
  | vbool (b : Bool)
  | vnone
deriving DecidableEq, Repr

namespace PyVal

/-- Python truthiness of a scalar. -/
def truthy : PyVal → Bool
  | vstr s => s ≠ ""
  | vint n => n ≠ 0
  | vbool b => b
  | vnone => false

/-- Python `str(v)`. -/
def pyStr : PyVal → String
  | vstr s => s
  | vint n => toString n
  | vbool b => if b then "True" else "False"
  | vnone => "None"

end PyVal

open PyVal

/-- Python `needle in haystack` on lists of characters. -/
def infixOf (p : List Char) : List Char → Bool
  | [] => p == []
  | c :: rest => p.isPrefixOf (c :: rest) || infixOf p rest

/-- Python `needle in haystack` for strings. -/
def strContains (hay needle : String) : Bool := infixOf needle.data hay.data

/-- Python `s.lower()` (ASCII). -/
def lowerStr (s : String) : String := ⟨s.data.map Char.toLower⟩

/-- Whitespace stripped by Python `str.strip()`. -/
def isPySpace (c : Char) : Bool :=
  c = ' ' || c = '\t' || c = '\n' || c = '\r' ||
    c = (Char.ofNat 11) || c = (Char.ofNat 12)

/-- Python `s.strip()`. -/
def pyTrim (s : String) : String :=
  ⟨((s.data.dropWhile isPySpace).reverse.dropWhile isPySpace).reverse⟩

/-- Python `s.replace("_", "").replace("-", "").replace(" ", "")` — the
separator stripping used to build the fuzzy lookup map. -/
def stripSeps (s : String) : String :=
  ⟨s.data.filter (fun c => !(c = '_' || c = '-' || c = ' '))⟩

/-- Python `s.replace("_", "").replace("-", "")` — the (space-preserving)
stripping used when resolving `${...}` placeholders. -/
def stripUnderHyphen (s : String) : String :=
  ⟨s.data.filter (fun c => !(c = '_' || c = '-'))⟩

/-- A Python dict from variable/field keys to scalar values, as an
insertion-ordered association list with unique keys. -/
abbrev VMap := List (String × PyVal)

/-- Python `m[k] = v`: replace the binding in place if the key exists
(preserving its position, as CPython dicts do), else append. -/
def setKey (m : VMap) (k : String) (v : PyVal) : VMap :=
  if m.any (fun p => p.1 = k) then
    m.map (fun p => if p.1 = k then (k, v) else p)
  else
    m ++ [(k, v)]

/-- Python `m.get(k)` / `m[k]`. -/
def getKey (m : VMap) (k : String) : Option PyVal :=
  (m.find? (fun p => p.1 = k)).map (fun p => p.2)

/-- Python `k in m`. -/
def hasKey (m : VMap) (k : String) : Bool := m.any (fun p => p.1 = k)

/-! ## Value Aggregator merge steps (task_detail_view, tasks.py lines 1127-1199)

The view assembles `values_map` by applying six sources in order.  The three
REST-backed steps are:
* task-local runtime variables: `values_map.update(rest_vars)`;
* process-instance runtime variables: `if k not in values_map: values_map[k] = v`;
* historic variables: `if k not in values_map: values_map[k] = v`.
-/

/-- Python `a.update(b)`: every binding of `b` is written into `a`,
overwriting existing keys. -/
def mergeUpdate (a b : VMap) : VMap :=
  b.foldl (fun m kv => setKey m kv.1 kv.2) a

/-- The fill-gap loop `for k, v in b.items(): if k not in values_map:
values_map[k] = v` used for REST process-instance runtime variables and for
REST historic variables. -/
def mergeFillGaps (a b : VMap) : VMap :=
  b.foldl (fun m kv => if hasKey m kv.1 then m else setKey m kv.1 kv.2) a

/-- The filter applied to historic form-instance values before they are merged:
`{k: v for k, v in h.items() if v is not None and str(v).strip() != ""}`. -/
def filterValidHist (h : VMap) : VMap :=
  h.filter (fun kv => kv.2 ≠ vnone && pyTrim (pyStr kv.2) ≠ "")

/-- One field of the flat form snapshot (`flat_form_data["fields"]`): its
`id` (`""` models a missing/empty id), its `type`, and its `value`. -/
structure FlatField : Type where
  fid : String
  ftype : String
  value : PyVal
deriving DecidableEq, Repr

/-- The option-bearing field types, compared exactly as the Python literals. -/
def droplikeTypes : List String := ["dropdown", "select", "radio-buttons"]

/-- Merging one flat-form snapshot field into the value map
(tasks.py lines 1178-1199): skipped if the id is empty or the value is
`None`/blank; values containing the generic placeholder `"option 1"` are
skipped for option-bearing types; `date`-typed values always override;
other values only fill gaps. -/
def flatMergeStep (m : VMap) (f : FlatField) : VMap :=
  if f.fid = "" then m
  else
    let ft := lowerStr f.ftype
    if f.value = vnone || pyTrim (pyStr f.value) = "" then m
    else
      let isGeneric := strContains (lowerStr (pyStr f.value)) "option 1"
      if isGeneric && decide (ft ∈ droplikeTypes) then m
      else if ft = "date" then setKey m f.fid f.value
      else if hasKey m f.fid then m
      else setKey m f.fid f.value

/-- The loop over all flat-form snapshot fields. -/
def flatMergeAll (m : VMap) (fs : List FlatField) : VMap :=
  fs.foldl flatMergeStep m

/-- The whole `values_map` assembly of the task-detail flow: historic form
instances (filtered), SQL history variables, REST task-local runtime
variables, REST process runtime variables (fill gaps), REST historic
variables (fill gaps), then the flat form snapshot. -/
def aggregateValues (histForm : VMap) (sqlVars : VMap)
    (restTaskVars restProcVars restHistVars : VMap)
    (flatFields : List FlatField) : VMap :=
  let m1 := mergeUpdate [] (filterValidHist histForm)
  let m2 := sqlVars.foldl (fun m kv => setKey m kv.1 kv.2) m1
  let m3 := mergeUpdate m2 restTaskVars
  let m4 := mergeFillGaps m3 restProcVars
  let m5 := mergeFillGaps m4 restHistVars
  flatMergeAll m5 flatFields

/-! ## Calendar dates and `datetime` modelling -/

/-- A Gregorian calendar date. -/
structure Date : Type where
  year : Nat
  month : Nat
  day : Nat
deriving DecidableEq, Repr

/-- Leap year in the proleptic Gregorian calendar. -/
def isLeap (y : Nat) : Bool :=
  (y % 4 = 0 && y % 100 ≠ 0) || y % 400 = 0

/-- Days in a month. -/
def daysInMonth (y m : Nat) : Nat :=
  if m = 2 then (if isLeap y then 29 else 28)
  else if m = 4 || m = 6 || m = 9 || m = 11 then 30
  else 31

/-- A structurally valid calendar date within `datetime`'s supported years. -/
def Date.valid (d : Date) : Bool :=
  1 ≤ d.year && d.year ≤ 9999 && 1 ≤ d.month && d.month ≤ 12 &&
    1 ≤ d.day && d.day ≤ daysInMonth d.year d.month

/-- Civil date from days since the Unix epoch (proleptic Gregorian). -/
def civilFromDays (z0 : Int) : Int × Nat × Nat :=
  let z := z0 + 719468
  let era : Int := z.fdiv 146097
  let doe : Nat := (z - era * 146097).toNat
  let yoe : Nat := (doe - doe / 1460 + doe / 36524 - doe / 146096) / 365
  let y : Int := (yoe : Int) + era * 400
  let doy : Nat := doe - (365 * yoe + yoe / 4 - yoe / 100)
  let mp : Nat := (5 * doy + 2) / 153
  let d : Nat := doy - (153 * mp + 2) / 5 + 1
  let m : Nat := if mp < 10 then mp + 3 else mp - 9
  (if m ≤ 2 then y + 1 else y, m, d)

/-- `datetime.fromtimestamp(ms / 1000.0)` reduced to its calendar date
(UTC model).  Returns `none` where the Python call raises (out of the
`datetime` year range); the result is guarded to be a valid date. -/
def msToDateOpt (ms : Int) : Option Date :=
  let secs := ms.fdiv 1000
  let days := secs.fdiv 86400
  let (y, m, d) := civilFromDays days
  if 1 ≤ y ∧ y ≤ 9999 then
    let dt : Date := ⟨y.toNat, m, d⟩
    if dt.valid then some dt else none
  else none

/-- The decimal digit character for `k < 10`. -/
def digitChar : Nat → Char
  | 0 => '0' | 1 => '1' | 2 => '2' | 3 => '3' | 4 => '4'
  | 5 => '5' | 6 => '6' | 7 => '7' | 8 => '8' | _ => '9'

/-- Two-digit zero-padded rendering (`strftime` `%m` / `%d`). -/
def pad2 (n : Nat) : List Char := [digitChar (n / 10 % 10), digitChar (n % 10)]

/-- Four-digit zero-padded rendering (`strftime` `%Y`). -/
def pad4 (n : Nat) : List Char :=
  [digitChar (n / 1000 % 10), digitChar (n / 100 % 10),
   digitChar (n / 10 % 10), digitChar (n % 10)]

/-- `strftime("%Y-%m-%d")` as a character list. -/
def renderDateL (dt : Date) : List Char :=
  pad4 dt.year ++ ('-' :: (pad2 dt.month ++ ('-' :: pad2 dt.day)))

/-- `strftime("%Y-%m-%d")`. -/
def renderDate (dt : Date) : String := ⟨renderDateL dt⟩

/-- Decimal value of a digit string (`int(s)` for a string of digits). -/
def digitsVal (l : List Char) : Nat :=
  l.foldl (fun a c => a * 10 + (c.toNat - 48)) 0

/-- Splitting a character list on a separator character, CPython
`str.split(sep)` style (always at least one part). -/
def splitOnC (c : Char) : List Char → List (List Char)
  | [] => [[]]
  | x :: xs =>
    if x = c then [] :: splitOnC c xs
    else
      match splitOnC c xs with
      | [] => [[x]]
      | p :: ps => (x :: p) :: ps

/-- ASCII decimal digit test (Python `str.isdigit` per character). -/
def isDigitC (c : Char) : Bool := 48 ≤ c.toNat && c.toNat ≤ 57

/-- `strptime` `%d`: one digit `1-9`, or two digits `01`-`31`. -/
def parseDay (l : List Char) : Option Nat :=
  if (l.length = 1 || l.length = 2) && l.all isDigitC then
    let v := digitsVal l
    if 1 ≤ v && v ≤ 31 then some v else none
  else none

/-- `strptime` `%m`: one digit `1-9`, or two digits `01`-`12`. -/
def parseMonth (l : List Char) : Option Nat :=
  if (l.length = 1 || l.length = 2) && l.all isDigitC then
    let v := digitsVal l
    if 1 ≤ v && v ≤ 12 then some v else none
  else none

/-- `strptime` `%Y`: exactly four digits. -/
def parseYear (l : List Char) : Option Nat :=
  if l.length = 4 && l.all isDigitC then some (digitsVal l) else none

/-- `datetime.strptime(s, "%d<sep>%m<sep>%Y")`, including the calendar
validation performed when the parsed fields are turned into a `datetime`. -/
def parseDMY (sep : Char) (l : List Char) : Option Date :=
  match splitOnC sep l with
  | [dc, mc, yc] =>
    match parseDay dc, parseMonth mc, parseYear yc with
    | some d, some m, some y =>
      if 1 ≤ y && d ≤ daysInMonth y m then some ⟨y, m, d⟩ else none
    | _, _, _ => none
  | _ => none

/-- `datetime.strptime(s, "%m<sep>%d<sep>%Y")`. -/
def parseMDY (sep : Char) (l : List Char) : Option Date :=
  match splitOnC sep l with
  | [mc, dc, yc] =>
    match parseMonth mc, parseDay dc, parseYear yc with
    | some m, some d, some y =>
      if 1 ≤ y && d ≤ daysInMonth y m then some ⟨y, m, d⟩ else none
    | _, _, _ => none
  | _ => none

/-- `datetime.strptime(s, "%Y-%m-%d")`. -/
def parseYMD (l : List Char) : Option Date :=
  match splitOnC '-' l with
  | [yc, mc, dc] =>
    match parseYear yc, parseMonth mc, parseDay dc with
    | some y, some m, some d =>
      if 1 ≤ y && d ≤ daysInMonth y m then some ⟨y, m, d⟩ else none
    | _, _, _ => none
  | _ => none

/-- The fixed ordered candidate-format loop of the date-formatting step
(tasks.py line 853): `%d-%m-%Y`, `%d/%m/%Y`, `%m-%d-%Y`, `%m/%d/%Y`,
`%Y-%m-%d`; the first successful parse wins. -/
def parse5 (l : List Char) : Option Date :=
  match parseDMY '-' l with
  | some dt => some dt
  | none =>
    match parseDMY '/' l with
    | some dt => some dt
    | none =>
      match parseMDY '-' l with
      | some dt => some dt
      | none =>
        match parseMDY '/' l with
        | some dt => some dt
        | none => parseYMD l

/-- Python `s.split(" ")[0]`. -/
def firstTokenSpace (s : String) : String := ⟨s.data.takeWhile (fun c => c ≠ ' ')⟩

/-- Python `s.split("T")[0]`. -/
def beforeT (s : String) : String := ⟨s.data.takeWhile (fun c => c ≠ 'T')⟩

/-- Python `s.isdigit()` (ASCII model). -/
def isDigitStr (s : String) : Bool := s ≠ "" && s.data.all isDigitC

/-- The date-formatting step of `_populate_model_values`
(tasks.py lines 827-869), applied to a date-typed field's current value:
integers (Python `bool` included, being an `int` subclass) are read as
milliseconds since the epoch; digit-strings are converted to integers first;
other strings lose their first space-separated tail, take everything before a
`"T"` if one is present, and are otherwise run through the five-format parse
loop when they contain `-` or `/`; on total parse failure a value containing a
space keeps only its first token; a `fromtimestamp` failure leaves the value
unchanged (the exception is caught). -/
def normalizeDateValue (v : PyVal) : PyVal :=
  if ¬ v.truthy then v
  else
    match v with
    | vint n =>
      match msToDateOpt n with
      | some dt => vstr (renderDate dt)
      | none => v
    | vbool _ =>
      -- only reachable with `vbool true`: `isinstance(True, int)` holds and
      -- `True / 1000.0` is `0.001`, whose calendar date is that of 0 ms
      match msToDateOpt 1 with
      | some dt => vstr (renderDate dt)
      | none => v
    | vstr s =>
      if isDigitStr s then
        match msToDateOpt (digitsVal s.data : Nat) with
        | some dt => vstr (renderDate dt)
        | none => v
      else
        let val := firstTokenSpace s
        if strContains val "T" then vstr (beforeT val)
        else if strContains val "-" || strContains val "/" then
          match parse5 val.data with
          | some dt => vstr (renderDate dt)
          | none => if strContains s " " then vstr (firstTokenSpace s) else v
        else v
    | vnone => v

/-- Joining parts with a separator (left inverse of `splitOnC`). -/
def joinSep (c : Char) : List (List Char) → List Char
  | [] => []
  | [p] => p
  | p :: q :: ps => p ++ c :: joinSep c (q :: ps)

/-- The supported date encodings of the specification: a
milliseconds-since-epoch integer, a numeric string, or a string whose first
space-separated token parses under one of the five accepted formats. -/
def supportedDateInput : PyVal → Bool
  | vint _ => true
  | vstr s => isDigitStr s || (parse5 (firstTokenSpace s).data).isSome
  | _ => false

/-! ## C4: decoding serializable binary date blobs (_load_task_detail,
tasks.py lines 104-175) -/

/-- Python `blob.find(b"\x78\x70")`: index of the first occurrence of the
two-byte marker, `none` for `-1`. -/
def findMarker : List Nat → Option Nat
  | [] => none
  | [_] => none
  | a :: b :: rest =>
    if a = 120 ∧ b = 112 then some 0
    else (findMarker (b :: rest)).map (fun i => i + 1)

/-- `int.from_bytes(bs, byteorder="big", signed=True)` for an 8-byte list. -/
def beSigned (bs : List Nat) : Int :=
  let u : Nat := bs.foldl (fun a b => a * 256 + b) 0
  if u ≥ 2 ^ 63 then (u : Int) - 2 ^ 64 else (u : Int)

/-- The serializable-blob scan: find the `0x78 0x70` marker, read the
following 8 bytes as a big-endian signed millisecond timestamp, and accept it
only inside the plausibility window `(1000000000000, 3000000000000)`. -/
def parseSerializableDate (bs : List Nat) : Option Date :=
  match findMarker bs with
  | none => none
  | some i =>
    if i + 10 ≤ bs.length then
      let ts := beSigned ((bs.drop (i + 2)).take 8)
      if 1000000000000 < ts ∧ ts < 3000000000000 then msToDateOpt ts else none
    else none

/-- One row of the `ACT_HI_VARINST ⟕ ACT_GE_BYTEARRAY` query: name, declared
type, and the polymorphic value columns (the `DOUBLE_` column is modelled as
an integer; no claim exercises float values). -/
structure VarRow : Type where
  name : String
  vtype : String
  text : Option String
  long : Option Int
  double : Option Int
  bytes : Option (List Nat)
  taskId : Option String
  procInstId : Option String
deriving DecidableEq, Repr

/-- Python truthiness of the bytes column. -/
def bytesTruthy : Option (List Nat) → Bool
  | some bs => bs ≠ []
  | none => false

/-- The per-row value resolution of `_load_task_detail`: date/jodadate longs
become dates (falling back to the raw long when `fromtimestamp` raises),
serializable blobs are scanned for the binary date encoding, and otherwise
the first non-NULL of text > long > double wins. -/
def rowValue (r : VarRow) : Option PyVal :=
  let v1 : Option PyVal :=
    if (r.vtype = "date" ∨ r.vtype = "jodadate") ∧ r.long.isSome then
      match r.long with
      | some n =>
        match msToDateOpt n with
        | some dt => some (vstr (renderDate dt))
        | none => some (vint n)
      | none => none
    else if r.vtype = "serializable" ∧ bytesTruthy r.bytes then
      match r.bytes with
      | some bs => (parseSerializableDate bs).map (fun dt => vstr (renderDate dt))
      | none => none
    else none
  match v1 with
  | some v => some v
  | none =>
    match r.text with
    | some t => some (vstr t)
    | none =>
      match r.long with
      | some n => some (vint n)
      | none => r.double.map vint

/-- The inclusion decision for one variable row: an unparseable serializable
blob is dropped (`continue`) rather than emitted with a `None` value. -/
def processVarRow (r : VarRow) : Option (String × PyVal) :=
  let value := rowValue r
  if value = none ∧ r.vtype = "serializable" ∧ bytesTruthy r.bytes = true then
    none
  else some (r.name, value.getD vnone)

/-! ## Form fields and the populated model -/

/-- One `{id, name}` entry of a field's `options` list.  A missing key is
`none`; `opt.get("id", "")` renders `none` as `""` and `None` as `"None"`. -/
structure Opt : Type where
  oid : Option PyVal
  oname : Option PyVal
deriving DecidableEq, Repr

/-- A form-model field node: `id`, `name` and `type` (with `""` modelling a
missing/empty entry — the code only ever tests them for truthiness,
lower-cases them, or compares them to non-empty literals), the current
`value` (`vnone` = missing/`None`), the `options` list (`[]` =
missing/empty), the `readOnly` flag, nested `children` (the `"fields"` key)
and a nested `rows → cols → fields` layout (cols are modelled by their
fields lists). -/
inductive Field : Type where
  | mk (fid : String) (fname : String) (ftype : String) (value : PyVal)
      (options : List Opt) (readOnly : Bool)
      (children : List Field) (rows : List (List (List Field)))

def Field.fid : Field → String
  | .mk i _ _ _ _ _ _ _ => i

def Field.fname : Field → String
  | .mk _ n _ _ _ _ _ _ => n

def Field.ftype : Field → String
  | .mk _ _ t _ _ _ _ _ => t

def Field.value : Field → PyVal
  | .mk _ _ _ v _ _ _ _ => v

def Field.options : Field → List Opt
  | .mk _ _ _ _ o _ _ _ => o

def Field.readOnly : Field → Bool
  | .mk _ _ _ _ _ r _ _ => r

def Field.children : Field → List Field
  | .mk _ _ _ _ _ _ c _ => c

def Field.rows : Field → List (List (List Field))
  | .mk _ _ _ _ _ _ _ rs => rs

/-- Replace a field's `type` entry. -/
def Field.setType (f : Field) (t : String) : Field :=
  match f with
  | .mk i n _ v o r c rs => .mk i n t v o r c rs

/-! ## C8: headline reclassification (_identify_headlines,
tasks.py lines 1386-1436) -/

/-- The per-field decision of `_identify_headlines`, given the (original)
next field of the list when one exists. -/
def headlineStep (f : Field) (next? : Option Field) : Field :=
  let ft := lowerStr f.ftype
  let fn := lowerStr f.fname
  if ft = "header" ∨ ft = "expression" ∨ ft = "formatted-text" ∨
      ft = "container" then f
  else if strContains fn "reason for non-ftr" = true ∧
      (ft = "text" ∨ ft = "multi-line-text" ∨ ft = "plain-text") then
    f.setType "header"
  else
    match next? with
    | some nf =>
      if nf.ftype = "boolean" then
        if ft = "text" ∨ ft = "multi-line-text" ∨ ft = "plain-text" then
          if strContains fn "time taken" = true then f
          else if f.readOnly then f.setType "header"
          else if ¬ f.value.truthy then f.setType "header"
          else f
        else f
      else f
    | none => f

/-- The pass of `_identify_headlines` over one list of fields: each field's
decision reads the still-unmodified following field. -/
def identifyHeadlinesList : List Field → List Field
  | [] => []
  | [f] => [headlineStep f none]
  | f :: g :: rest => headlineStep f (some g) :: identifyHeadlinesList (g :: rest)

/-! ## C9: remote submit and claim calls (_submit_task_form lines 257-295,
_claim_task lines 893-922)

HTTP is modelled by an oracle from request URL to outcome; the request
payloads (form fields, outcome, assignee) do not influence the modelled
control flow and are carried as inert parameters. -/

/-- The outcome of one `requests.post`: a response (final status code, the
value of `"message"` in the JSON body when the body parses and has one, and
the raw text), or a transport exception with its message. -/
structure HttpResp : Type where
  status : Nat
  jsonMessage : Option String
  text : String
deriving DecidableEq, Repr

inductive HttpResult : Type where
  | resp (r : HttpResp)
  | exn (msg : String)
deriving DecidableEq, Repr

/-- Python `s.rstrip("/")`. -/
def rstripSlash (s : String) : String :=
  ⟨(s.data.reverse.dropWhile (fun c => c = '/')).reverse⟩

/-- `str(requests.HTTPError)` for a non-2xx/3xx response, as raised by
`raise_for_status` (opaque rendering of the status). -/
def httpErrMsg (r : HttpResp) : String := "HTTPError " ++ toString r.status

/-- `_submit_task_form`: post to the process-api form-data path; on a 404
retry once against the form-api path; convert `raise_for_status` errors
(status 400-599) and transport exceptions to `(False, message)`. -/
def submitTaskForm (post : String → HttpResult) (base : String)
    (_fields : List (String × String)) (_outcome : Option String) :
    Bool × String :=
  let b := rstripSlash base
  if b = "" then (false, "Flowable base URL is not configured")
  else
    match post (b ++ "/process-api/form/form-data") with
    | .exn m => (false, m)
    | .resp r =>
      if r.status = 404 then
        match post (b ++ "/form-api/form-data") with
        | .exn m => (false, m)
        | .resp r2 =>
          if 400 ≤ r2.status ∧ r2.status < 600 then (false, httpErrMsg r2)
          else (true, "")
      else if 400 ≤ r.status ∧ r.status < 600 then (false, httpErrMsg r)
      else (true, "")

/-- `_claim_task`: post the claim action; any status other than exactly 200
yields `(False, message-from-json-or-text)`. -/
def claimTask (post : String → HttpResult) (base taskId : String)
    (_userId : String) : Bool × String :=
  let b := rstripSlash base
  if b = "" then (false, "Flowable base URL is not configured")
  else
    match post (b ++ "/process-api/runtime/tasks/" ++ taskId) with
    | .exn m => (false, m)
    | .resp r =>
      if r.status ≠ 200 then (false, r.jsonMessage.getD r.text)
      else (true, "")

/-! ## The history database model (shared by C5 and C10) -/

/-- An opaque SQL datetime value (its rendering is not analysed by any
claim; `Dt.val` stands for the formatted timestamp). -/
structure Dt : Type where
  val : String
deriving DecidableEq, Repr

/-- One `ACT_HI_TASKINST` row. -/
structure TaskRow : Type where
  id : String
  name : Option String
  startTime : Option Dt
  endTime : Option Dt
  procInstId : Option String
  assignee : Option String
deriving DecidableEq, Repr

/-- One identity-link row (`ACT_RU_IDENTITYLINK` / `ACT_HI_IDENTITYLINK`). -/
structure IdentLink : Type where
  taskId : Option String
  ltype : Option String
  userId : Option String
  groupId : Option String
deriving DecidableEq, Repr

/-- One `ACT_CO_CONTENT_ITEM` row. -/
structure ContentRow : Type where
  id : String
  name : Option String
  mimeType : Option String
  created : Option Dt
  createdBy : Option String
  field : Option String
  procInstId : Option String
deriving DecidableEq, Repr

/-- The readable slice of the engine's relational schema. -/
structure Db : Type where
  tasks : List TaskRow
  varRows : List VarRow
  ruLinks : List IdentLink
  hiLinks : List IdentLink
  memberships : List (String × String)
  contentRows : List ContentRow
deriving DecidableEq, Repr

/-- SQL `=` between two nullable string columns: never true on `NULL`. -/
def sqlEqS : Option String → Option String → Bool
  | some a, some b => a = b
  | _, _ => false

/-- `get_user_groups`: `SELECT GROUP_ID_ FROM ACT_ID_MEMBERSHIP WHERE
USER_ID_ = user`. -/
def userGroups (db : Db) (u : String) : List String :=
  (db.memberships.filter (fun m => m.1 = u)).map (fun m => m.2)

/-- The candidate identity-link condition: `TYPE_ = 'candidate' AND
(USER_ID_ = user OR GROUP_ID_ IN groups)` (the `IN` clause is omitted when
the group list is empty, which coincides with membership in `[]`). -/
def candLink (l : IdentLink) (tid : String) (u : String)
    (groups : List String) : Bool :=
  sqlEqS l.taskId (some tid) && l.ltype = some "candidate" &&
    (l.userId = some u ||
      (match l.groupId with
       | some g => decide (g ∈ groups)
       | none => false))

/-! ## C10: get_user_task_stats (dashboard.py lines 233-348) -/

/-- SQL `MAX` over nullable strings (lexicographic, `NULL`s ignored). -/
def optMax : Option String → Option String → Option String
  | none, b => b
  | some a, none => some a
  | some a, some b => some (max a b)

/-- The per-process aggregate `MAX(CASE WHEN NAME_ = vname THEN TEXT_ END)`
of the joined variable subquery. -/
def aggVar (db : Db) (p : String) (vname : String) : Option String :=
  db.varRows.foldl
    (fun acc r =>
      if r.procInstId = some p ∧ r.name = vname then optMax acc r.text
      else acc) none

/-- The `WHERE` clause of `get_user_task_stats`: assignee, or unassigned
with a history candidate link, plus the optional site substring and
activity equality filters (active only when non-empty, per Python
truthiness of the request parameters). -/
def statsWhere (db : Db) (u : String) (site activity : String)
    (groups : List String) (t : TaskRow) : Bool :=
  match t.procInstId with
  | some p =>
    db.varRows.any (fun r => r.procInstId = some p) &&
    (t.assignee = some u ||
      (t.assignee = none &&
        db.hiLinks.any (fun l => candLink l t.id u groups))) &&
    (site = "" ||
      (match aggVar db p "siteid" with
       | some s => strContains s site
       | none => false)) &&
    (activity = "" || aggVar db p "activitytype" = some activity)
  | none => false

/-- `ORDER BY (END_TIME_ IS NULL) DESC, END_TIME_ DESC`: pending rows first,
then by end time descending. -/
def statsRowLE (a b : TaskRow) : Bool :=
  let ka : Nat := if a.endTime = none then 1 else 0
  let kb : Nat := if b.endTime = none then 1 else 0
  if ka = kb then ((b.endTime.map Dt.val).getD "" ≤ (a.endTime.map Dt.val).getD "")
  else kb < ka

/-- Ordered insertion for the result sort (kernel-reducible). -/
def insertRow (a : TaskRow) : List TaskRow → List TaskRow
  | [] => [a]
  | b :: rest => if statsRowLE a b then a :: b :: rest else b :: insertRow a rest

/-- Insertion sort implementing the query's `ORDER BY`. -/
def sortRows : List TaskRow → List TaskRow
  | [] => []
  | a :: rest => insertRow a (sortRows rest)

/-- The rows produced by the stats query, in result order. -/
def statsSelectedRows (db : Db) (u : String) (site activity : String) :
    List TaskRow :=
  sortRows (db.tasks.filter (statsWhere db u site activity (userGroups db u)))

/-- One entry of the `tasks` list in the result of `get_user_task_stats`. -/
structure StatsEntry : Type where
  tid : String
  tname : Option String
  siteid : Option String
  activity : Option String
  status : String
  date : String
  procInstId : Option String
deriving DecidableEq, Repr

/-- The result dictionary of `get_user_task_stats`. -/
structure StatsResult : Type where
  completed : Nat
  pending : Nat
  tasks : List StatsEntry
deriving DecidableEq, Repr

/-- The row-to-entry conversion of the result loop. -/
def statsEntryOf (db : Db) (t : TaskRow) : StatsEntry :=
  { tid := t.id
    tname := t.name
    siteid := match t.procInstId with
      | some p => aggVar db p "siteid"
      | none => none
    activity := match t.procInstId with
      | some p => aggVar db p "activitytype"
      | none => none
    status := if t.endTime.isSome then "Completed" else "Pending"
    date := match (t.endTime.or t.startTime) with
      | some d => d.val
      | none => "-"
    procInstId := t.procInstId }

/-- `get_user_task_stats`: run the query and fold the result loop. -/
def getUserTaskStats (db : Db) (u : String) (site activity : String) :
    StatsResult :=
  (statsSelectedRows db u site activity).foldl
    (fun acc t =>
      { completed := acc.completed + (if t.endTime.isSome then 1 else 0)
        pending := acc.pending + (if t.endTime.isSome then 0 else 1)
        tasks := acc.tasks ++ [statsEntryOf db t] })
    ⟨0, 0, []⟩

/-! ## C5: _load_task_detail permission and detail assembly
(tasks.py lines 20-214) -/

/-- Python truthiness of a nullable string column. -/
def truthyOptStr : Option String → Bool
  | some s => s ≠ ""
  | none => false

/-- The assembled task detail. -/
structure TaskDetail : Type where
  id : String
  name : Option String
  status : String
  start : Option Dt
  endTime : Option Dt
  procInstId : Option String
  vars : List (String × PyVal)
  contentItems : List ContentRow
  assignee : Option String
  canClaim : Bool
  isAssignee : Bool
deriving DecidableEq, Repr

/-- `ORDER BY CREATED_ DESC` insertion for content items. -/
def contentLE (a b : ContentRow) : Bool :=
  ((b.created.map Dt.val).getD "") ≤ ((a.created.map Dt.val).getD "")

def insertContent (a : ContentRow) : List ContentRow → List ContentRow
  | [] => [a]
  | b :: rest =>
    if contentLE a b then a :: b :: rest else b :: insertContent a rest

def sortContent : List ContentRow → List ContentRow
  | [] => []
  | a :: rest => insertContent a (sortContent rest)

/-- The variables dictionary of `_load_task_detail`: rows in process or task
scope, resolved per `processVarRow` (unparseable serializable blobs
skipped), task-scoped rows overriding process-scoped ones for the same
name. -/
def buildVariables (db : Db) (tid : String) (procInstId : Option String) :
    List (String × PyVal) :=
  (db.varRows.filter
    (fun r => sqlEqS r.procInstId procInstId || r.taskId = some tid)).foldl
    (fun m r =>
      match processVarRow r with
      | none => m
      | some (nm, v) =>
        if ¬ hasKey m nm ∨ r.taskId = some tid then setKey m nm v else m) []

/-- The resolved-candidate check: a `candidate` identity link carrying the
user id or one of the user's group ids, in the runtime table or (fallback)
the history table.  (The runtime-table probe's `try/except` guard is
modelled as a successful query.) -/
def isCandidate (db : Db) (taskId userId : String) : Bool :=
  let groups := userGroups db userId
  db.ruLinks.any (fun l => candLink l taskId userId groups) ||
    db.hiLinks.any (fun l => candLink l taskId userId groups)

/-- The detail record built once access is granted. -/
def mkDetail (db : Db) (t : TaskRow) (cc isA : Bool) : TaskDetail :=
  { id := t.id
    name := t.name
    status := if t.endTime.isSome then "Completed" else "Pending"
    start := t.startTime
    endTime := t.endTime
    procInstId := t.procInstId
    vars := buildVariables db t.id t.procInstId
    contentItems :=
      sortContent (db.contentRows.filter
        (fun c => sqlEqS c.procInstId t.procInstId))
    assignee := t.assignee
    canClaim := cc
    isAssignee := isA }

/-- `_load_task_detail`: find the task row; the assignee sees it; a task
assigned to someone else is never shown (returns `none`, indistinguishable
from a missing task); an unassigned task is shown exactly to resolved
candidates, with `can_claim` set. -/
def loadTaskDetail (db : Db) (userId taskId : String) : Option TaskDetail :=
  match db.tasks.find? (fun t => t.id = taskId) with
  | none => none
  | some t =>
    if t.assignee = some userId then some (mkDetail db t false true)
    else if truthyOptStr t.assignee then none
    else if isCandidate db taskId userId then some (mkDetail db t true false)
    else none

/-! ## The Form Model Populator (_populate_model_values,
tasks.py lines 597-890)

The two derived lookup maps are rebuilt from the value map (the original
builds them once up front; nothing mutates the map during field processing,
so the recomputation is equivalence-preserving).  Dict-valued entries of
`values_map` (whose useful string is extracted during map construction) are
outside the scalar model and documented in the header. -/

/-- `normalized_map`: lower-cased keys, later bindings winning. -/
def normMap (vm : VMap) : VMap :=
  vm.foldl (fun acc kv => setKey acc (lowerStr kv.1) kv.2) []

/-- `fuzzy_map`: lower-cased keys with `_`, `-` and spaces stripped. -/
def fuzzyMap (vm : VMap) : VMap :=
  vm.foldl (fun acc kv => setKey acc (stripSeps (lowerStr kv.1)) kv.2) []

/-- `CIRCLE_LIST` (dashboard.py lines 9-12). -/
def CIRCLE_LIST : List String :=
  ["BH", "CG", "JH", "RJ", "WB", "NESA", "OR", "KK", "MP", "HR",
   "UP East", "PB", "MG", "JK", "DL", "TN", "KL", "HP", "UP West", "AP",
   "GUJ"]

/-- `ACTIVITY_LIST` (dashboard.py lines 14-18). -/
def ACTIVITY_LIST : List String :=
  ["BFS", "PLVA", "TLVA", "PLVA + STR", "TLVA + STR", "Verticality",
   "ALS", "RR", "JV - Thar", "RR Str.", "JV", "BFS Str.",
   "Civil Survey + Dwgs.", "Foundation Design", "Foundation Str."]

/-- `[{"name": c, "id": c} for c in cs]`. -/
def mkOpts (cs : List String) : List Opt :=
  cs.map (fun c => ⟨some (vstr c), some (vstr c)⟩)

/-- `str(opt.get(key, ""))`: `""` for a missing key, `str` of the value
otherwise. -/
def strDefault : Option PyVal → String
  | none => ""
  | some v => pyStr v

/-- Dropdown option repair (tasks.py lines 640-674): canonical option lists
for known semantic field ids when options are missing/empty, and the
forward/outcome Yes-No repair (which also clears a generic
`Option 1` value). -/
def stageOptions (fid fname ftype : String) (value : PyVal)
    (opts : List Opt) : PyVal × List Opt :=
  if ftype ∈ droplikeTypes then
    let fidL := lowerStr fid
    let fnameL := lowerStr fname
    if strContains fidL "circle" && opts.isEmpty then
      (value, mkOpts CIRCLE_LIST)
    else if strContains fidL "activity" && opts.isEmpty then
      (value, mkOpts ACTIVITY_LIST)
    else if strContains fidL "client" && opts.isEmpty then
      (value, mkOpts ["Indus", "ATC", "Sitel", "Other"])
    else if strContains fidL "allocation" && opts.isEmpty then
      (value, mkOpts ["Single", "Bulk", "Auto"])
    else if strContains fidL "forward" || strContains fidL "outcome" ||
        strContains fnameL "forward" then
      let hasGeneric :=
        opts.any (fun o => strContains (lowerStr (strDefault o.oname))
          "option 1")
      if opts.isEmpty || hasGeneric then
        (if strContains (lowerStr (pyStr value)) "option 1" then vnone
         else value, mkOpts ["Yes", "No"])
      else (value, opts)
    else (value, opts)
  else (value, opts)

/-- First key of the candidate list present in the map (its stored value,
which may be `None`). -/
def firstHit (nm : VMap) : List String → Option PyVal
  | [] => none
  | k :: rest =>
    match getKey nm k with
    | some v => some v
    | none => firstHit nm rest

/-- Heuristic value backfill (tasks.py lines 676-722): fill an empty value
by semantic field-id substring match against fixed synonym lists, looked up
in the normalized map. -/
def stageBackfill (nm : VMap) (fid : String) (value : PyVal) : PyVal :=
  if value.truthy || fid = "" then value
  else
    let fidL := lowerStr fid
    if strContains fidL "circle" then
      match getKey nm "circle" with
      | some v => v
      | none => value
    else if strContains fidL "client" then
      match firstHit nm ["client", "clientname", "customer", "vendor"] with
      | some v => v
      | none => value
    else if strContains fidL "date" then
      let targets :=
        if strContains fidL "survey" then ["surveydate"]
        else if strContains fidL "allotment" ||
            strContains fidL "allocation" then
          ["allotmentdate", "allocationdate"]
        else ["date"]
      match firstHit nm targets with
      | some v => v
      | none => value
    else if strContains fidL "activity" then
      match getKey nm "activitytype" with
      | some v => v
      | none =>
        match getKey nm "activity" with
        | some v => v
        | none => value
    else value

/-- The spec's description of the backfill synonym table, keyed on
field-id substrings, to be compared against `stageBackfill`. -/
def backfillSynonymsSpec (fidL : String) : List String :=
  if strContains fidL "circle" then ["circle"]
  else if strContains fidL "client" then
    ["client", "clientname", "customer", "vendor"]
  else if strContains fidL "date" then
    if strContains fidL "survey" then ["surveydate"]
    else if strContains fidL "allotment" || strContains fidL "allocation" then
      ["allotmentdate", "allocationdate"]
    else ["date"]
  else if strContains fidL "activity" then ["activitytype", "activity"]
  else []

/-- `safe_set_value`: a non-`None` candidate always lands; `None` lands only
on a currently-falsy value. -/
def safeSet (cur new : PyVal) : PyVal :=
  if new ≠ vnone then new
  else if ¬ cur.truthy then vnone
  else cur

/-- Exact, case-insensitive, fuzzy and relaxed-substring key lookup
(tasks.py lines 726-768). -/
def stageLookup (vm nm fm : VMap) (fid : String) (value : PyVal) : PyVal :=
  if fid ≠ "" ∧ hasKey vm fid = true then
    safeSet value ((getKey vm fid).getD vnone)
  else if fid ≠ "" ∧ hasKey nm (lowerStr fid) = true then
    safeSet value ((getKey nm (lowerStr fid)).getD vnone)
  else if fid ≠ "" then
    let clean := stripSeps (lowerStr fid)
    if hasKey fm clean then safeSet value ((getKey fm clean).getD vnone)
    else if ¬ value.truthy then
      match fm.find? (fun kv => kv.1.length > 3 &&
          (strContains clean kv.1 || strContains kv.1 clean)) with
      | some kv => kv.2
      | none => value
    else value
  else value

/-- Strip-and-lower normalization used by the value-in-options check. -/
def normOptStr (o : Option PyVal) : String := lowerStr (pyTrim (strDefault o))

/-- Whether the current value (strip-lowered) matches an option id or an
option name. -/
def valueInOptions (v : PyVal) (opts : List Opt) : Bool :=
  let c := lowerStr (pyTrim (pyStr v))
  opts.any (fun o => normOptStr o.oname = c) ||
    opts.any (fun o => normOptStr o.oid = c)

/-- Value-in-options guarantee (tasks.py lines 770-781): for option-bearing
fields with a non-empty options list and a truthy value, append a synthetic
`{id: value, name: value}` option when no existing option matches. -/
def stageValueInOptions (ftype : String) (value : PyVal) (opts : List Opt) :
    List Opt :=
  if ftype ∈ droplikeTypes then
    if ¬ opts.isEmpty ∧ value.truthy = true then
      if valueInOptions value opts then opts
      else opts ++ [⟨some value, some value⟩]
    else opts
  else opts

/-- `dict.get` treating a stored `None` like a missing key (as
`values_map.get(var_name)` followed by `if val is None`). -/
def lookupNoneAware (m : VMap) (k : String) : Option PyVal :=
  match getKey m k with
  | some v => if v = vnone then none else some v
  | none => none

/-- Placeholder resolution for `${var}`: exact map, then case-folded map,
then the fuzzy map under `_`/`-` stripping with default `""`
(tasks.py lines 804-813). -/
def resolveVar (vm nm fm : VMap) (var : String) : String :=
  match lookupNoneAware vm var with
  | some v => pyStr v
  | none =>
    match lookupNoneAware nm (lowerStr var) with
    | some v => pyStr v
    | none =>
      match getKey fm (stripUnderHyphen (lowerStr var)) with
      | some v => pyStr v
      | none => ""

/-- Find the lazily-first closing brace (at index ≥ 1, as `(.+?)}` needs at
least one body character, and `.` does not cross a newline): returns the
body and the remainder. -/
def findCloseBrace : List Char → Option (List Char × List Char)
  | [] => none
  | c0 :: rest =>
    let body1 := rest.takeWhile (fun c => c ≠ '}')
    match rest.drop body1.length with
    | [] => none
    | _ :: after =>
      if (c0 :: body1).any (fun c => c = '\n') then none
      else some (c0 :: body1, after)

/-- `re.sub(r"\$\{(.+?)\}", replacer, content)`. -/
def substExpr (vm nm fm : VMap) : List Char → List Char
  | [] => []
  | '$' :: '{' :: rest =>
    match hfc : findCloseBrace rest with
    | some (body, after) =>
      (resolveVar vm nm fm ⟨body⟩).data ++ substExpr vm nm fm after
    | none => '$' :: substExpr vm nm fm ('{' :: rest)
  | c :: rest => c :: substExpr vm nm fm rest
  termination_by l => l.length
  decreasing_by
  · have hlt : after.length < rest.length := by
      have h := hfc
      cases rest with
      | nil => simp [findCloseBrace] at h
      | cons c0 rest2 =>
        unfold findCloseBrace at h
        dsimp only at h
        rcases hd : rest2.drop (rest2.takeWhile (fun c => c ≠ '}')).length
          with _ | ⟨x, after2⟩ <;> rw [hd] at h
        · simp at h
        · split at h
          · simp at h
          · split at h
            · simp at h
            · rename_i x2 hd2 heq hnl
              simp only [Option.some.injEq, Prod.mk.injEq] at h
              injection heq with he1 he2
              have hlen : (x :: after2).length ≤ rest2.length := by
                rw [← hd, List.length_drop]
                omega
              simp only [List.length_cons] at hlen
              rw [← h.2, ← he2]
              simp only [List.length_cons]
              omega
    simp only [List.length_cons]
    omega
  · simp
  · simp

/-- The display types whose `name` carries the expression content when the
field has no value. -/
def isDisplayType (t : String) : Bool :=
  t = "expression" || t = "header" || t = "formatted-text"

/-- Expression substitution (tasks.py lines 790-822): substitute `${...}`
in the field's value (or in its name, for valueless display fields,
mirroring the result into the value). -/
def stageExpr (vm nm fm : VMap) (ftype fname : String) (value : PyVal) :
    String × PyVal :=
  if isDisplayType ftype = true ∧ value.truthy = false ∧ fname ≠ "" then
    if strContains fname "$\x7b" then
      let newC : String := ⟨substExpr vm nm fm fname.data⟩
      (newC, vstr newC)
    else (fname, value)
  else
    match value with
    | vstr s =>
      if strContains s "$\x7b" then
        (fname, vstr ⟨substExpr vm nm fm s.data⟩)
      else (fname, value)
    | _ => (fname, value)

/-- The whole per-field (leaf) processing chain, in source order: option
repair, heuristic backfill, exact/fuzzy lookup, value-in-options guarantee,
expression substitution, date normalization.  Returns the updated name,
value and options (id, type and readOnly are never written). -/
def processLeaf (vm : VMap) (fid fname ftype : String) (value : PyVal)
    (opts : List Opt) : String × PyVal × List Opt :=
  let nm := normMap vm
  let fm := fuzzyMap vm
  let s1 := stageOptions fid fname ftype value opts
  let v2 := stageBackfill nm fid s1.1
  let v3 := stageLookup vm nm fm fid v2
  let o2 := stageValueInOptions ftype v3 s1.2
  let s4 := stageExpr vm nm fm ftype fname v3
  let v5 := if lowerStr ftype = "date" then normalizeDateValue s4.2 else s4.2
  (s4.1, v5, o2)

mutual

/-- Depth-first processing of one field: its own leaf chain, then its
nested `fields` and `rows`. -/
def processField (vm : VMap) : Field → Field
  | .mk fid fname ftype value opts ro children rows =>
    let r := processLeaf vm fid fname ftype value opts
    .mk fid r.1 ftype r.2.1 r.2.2 ro (processFields vm children)
      (processRows vm rows)

def processFields (vm : VMap) : List Field → List Field
  | [] => []
  | f :: fs => processField vm f :: processFields vm fs

def processRows (vm : VMap) :
    List (List (List Field)) → List (List (List Field))
  | [] => []
  | r :: rs => processCols vm r :: processRows vm rs

def processCols (vm : VMap) : List (List Field) → List (List Field)
  | [] => []
  | c :: cs => processFields vm c :: processCols vm cs

end

/-- A form model: top-level `fields` plus a `rows → cols → fields` layout
(either may be empty). -/
structure FormModel : Type where
  fields : List Field
  rows : List (List (List Field))

/-- `_populate_model_values`: process the top-level fields, then every
field list of the layout. -/
def populateModelValues (vm : VMap) (m : FormModel) : FormModel :=
  ⟨processFields vm m.fields, processRows vm m.rows⟩

mutual

/-- Every field of a subtree, the root included. -/
def collectField : Field → List Field
  | .mk fid fname ftype value opts ro children rows =>
    .mk fid fname ftype value opts ro children rows ::
      (collectFields children ++ collectRows rows)

def collectFields : List Field → List Field
  | [] => []
  | f :: fs => collectField f ++ collectFields fs

def collectRows : List (List (List Field)) → List Field
  | [] => []
  | r :: rs => collectCols r ++ collectRows rs

def collectCols : List (List Field) → List Field
  | [] => []
  | c :: cs => collectFields c ++ collectCols cs

end

/-- Every field anywhere in a form model. -/
def collectModel (m : FormModel) : List Field :=
  collectFields m.fields ++ collectRows m.rows

/-- A scalar free of the `${` placeholder marker. -/
def noPlaceholder : PyVal → Bool
  | vstr s => ! strContains s "$\x7b"
  | _ => true


/-! ### Basic lookup lemmas -/

theorem find_replace_eq (m : VMap) (k : String) (v : PyVal) :
    (m.map (fun p => if p.1 = k then (k, v) else p)).find? (fun p => p.1 = k) =
      ((m.find? (fun p => p.1 = k)).map (fun _ => (k, v))) := by
  induction m with
  | nil => simp
  | cons p t ih =>
    by_cases hp : p.1 = k
    · simp [List.find?, hp]
    · have hd : (decide (p.1 = k)) = false := by simp [hp]
      simp only [List.map_cons, List.find?, hd, if_neg hp]
      exact ih

theorem find_replace_ne (m : VMap) (k k' : String) (v : PyVal) (h : k' ≠ k) :
    (m.map (fun p => if p.1 = k then (k, v) else p)).find? (fun p => p.1 = k') =
      m.find? (fun p => p.1 = k') := by
  induction m with
  | nil => simp
  | cons p t ih =>
    by_cases hp : p.1 = k
    · have hd : (decide (k = k')) = false := by
        simp only [decide_eq_false_iff_not]
        exact fun hh => h hh.symm
      have hd' : (decide (p.1 = k')) = false := by
        simp only [decide_eq_false_iff_not]
        rw [hp]
        exact fun hh => h hh.symm
      simp only [List.map_cons, if_pos hp, List.find?, hd, hd']
      exact ih
    · by_cases hq : p.1 = k'
      · have hd : (decide (p.1 = k')) = true := by simp [hq]
        simp [List.map_cons, if_neg hp, List.find?, hd]
      · have hd : (decide (p.1 = k')) = false := by simp [hq]
        simp only [List.map_cons, if_neg hp, List.find?, hd]
        exact ih

theorem find_append_single (m : VMap) (k k' : String) (v : PyVal) :
    (m ++ [(k, v)]).find? (fun p => p.1 = k') =
      ((m.find? (fun p => p.1 = k')).orElse
        (fun _ => if k = k' then some (k, v) else none)) := by
  induction m with
  | nil =>
    by_cases hk : k = k' <;> simp [List.find?, hk]
  | cons p t ih =>
    by_cases hp : p.1 = k'
    · simp [List.find?, hp]
    · have hd : (decide (p.1 = k')) = false := by simp [hp]
      simp only [List.cons_append, List.find?, hd]
      exact ih

theorem any_false_find_none (m : VMap) (k : String)
    (h : m.any (fun p => p.1 = k) = false) :
    m.find? (fun p => p.1 = k) = none := by
  induction m with
  | nil => simp
  | cons p t ih =>
    simp only [List.any_cons, Bool.or_eq_false_iff] at h
    simp only [List.find?, h.1]
    exact ih h.2

theorem getKey_setKey_self (m : VMap) (k : String) (v : PyVal) :
    getKey (setKey m k v) k = some v := by
  unfold setKey getKey
  by_cases h : m.any (fun p => p.1 = k)
  · simp only [h, if_pos, find_replace_eq]
    have : (m.find? (fun p => p.1 = k)).isSome := by
      rw [List.find?_isSome]
      simpa [List.any_eq_true] using h
    rcases Option.isSome_iff_exists.mp this with ⟨x, hx⟩
    simp [hx]
  · have hf : m.any (fun p => p.1 = k) = false := by
      cases hh : m.any (fun p => p.1 = k) with
      | true => exact absurd hh h
      | false => rfl
    simp only [h, Bool.false_eq_true, if_neg, not_false_iff,
      find_append_single, any_false_find_none m k hf]
    simp [Option.orElse]

theorem getKey_setKey_ne (m : VMap) (k k' : String) (v : PyVal) (h : k' ≠ k) :
    getKey (setKey m k v) k' = getKey m k' := by
  unfold setKey getKey
  by_cases hm : m.any (fun p => p.1 = k)
  · simp only [hm, if_pos, find_replace_ne m k k' v h]
  · have hk : (k = k') = False := by
      simp only [eq_iff_iff, iff_false]
      exact fun hh => h hh.symm
    simp only [hm, Bool.false_eq_true, if_neg, not_false_iff,
      find_append_single, hk, if_false]
    cases m.find? (fun p => p.1 = k') <;> simp [Option.orElse]

theorem hasKey_iff_getKey (m : VMap) (k : String) :
    hasKey m k = true ↔ (getKey m k).isSome := by
  unfold hasKey getKey
  induction m with
  | nil => simp
  | cons p t ih =>
    by_cases hp : p.1 = k
    · simp [List.find?, hp]
    · have : (decide (p.1 = k)) = false := by simp [hp]
      simp only [List.any_cons, List.find?, this, Bool.false_or]
      exact ih

/-- A fill-gap step never changes the value at a key the map already holds. -/
theorem mergeFillGaps_preserves (a b : VMap) (k : String) (v : PyVal)
    (h : getKey a k = some v) : getKey (mergeFillGaps a b) k = some v := by
  unfold mergeFillGaps
  induction b generalizing a with
  | nil => simpa using h
  | cons kv t ih =>
    simp only [List.foldl_cons]
    by_cases hk : hasKey a kv.1
    · simp only [hk, if_pos]
      exact ih a h
    · simp only [hk, Bool.false_eq_true, if_neg, not_false_iff]
      apply ih
      by_cases hkk : k = kv.1
      · exfalso
        have := (hasKey_iff_getKey a k).mpr (by simp [h])
        rw [hkk] at this
        simp [hk] at this
      · rw [getKey_setKey_ne a kv.1 k kv.2 hkk]
        exact h

/-! ### Lemmas about digits, rendering and parsing -/

theorem digitChar_digit (k : Nat) : isDigitC (digitChar k) = true := by
  match k with
  | 0 | 1 | 2 | 3 | 4 | 5 | 6 | 7 | 8 => rfl
  | n + 9 => rfl

theorem digitChar_ne_dash (k : Nat) : digitChar k ≠ '-' := by
  match k with
  | 0 | 1 | 2 | 3 | 4 | 5 | 6 | 7 | 8 => decide
  | n + 9 => exact (show '9' ≠ '-' by decide)

theorem isDigitC_spec (c : Char) (h : isDigitC c = true) :
    48 ≤ c.toNat ∧ c.toNat ≤ 57 := by
  unfold isDigitC at h
  simp only [Bool.and_eq_true, decide_eq_true_eq] at h
  exact h

theorem digitChar_val (k : Nat) (h : k < 10) : (digitChar k).toNat - 48 = k := by
  interval_cases k <;> rfl

theorem not_digit_dash : isDigitC '-' = false := by decide

theorem not_digit_slash : isDigitC '/' = false := by decide

theorem not_digit_T : isDigitC 'T' = false := by decide

theorem not_digit_space : isDigitC ' ' = false := by decide

theorem pad2_all_digits (n : Nat) : (pad2 n).all isDigitC = true := by
  simp [pad2, digitChar_digit]

theorem pad4_all_digits (n : Nat) : (pad4 n).all isDigitC = true := by
  simp [pad4, digitChar_digit]

theorem digitsVal_pad2 (n : Nat) (h : n < 100) : digitsVal (pad2 n) = n := by
  unfold digitsVal pad2
  simp only [List.foldl]
  rw [digitChar_val (n / 10 % 10) (Nat.mod_lt _ (by norm_num)),
      digitChar_val (n % 10) (Nat.mod_lt _ (by norm_num))]
  omega

theorem digitsVal_pad4 (n : Nat) (h : n < 10000) : digitsVal (pad4 n) = n := by
  unfold digitsVal pad4
  simp only [List.foldl]
  rw [digitChar_val (n / 1000 % 10) (Nat.mod_lt _ (by norm_num)),
      digitChar_val (n / 100 % 10) (Nat.mod_lt _ (by norm_num)),
      digitChar_val (n / 10 % 10) (Nat.mod_lt _ (by norm_num)),
      digitChar_val (n % 10) (Nat.mod_lt _ (by norm_num))]
  omega

theorem pad2_length (n : Nat) : (pad2 n).length = 2 := rfl

theorem pad4_length (n : Nat) : (pad4 n).length = 4 := rfl

theorem digitsVal4_le (l : List Char) (hl : l.length = 4)
    (hd : l.all isDigitC = true) : digitsVal l ≤ 9999 := by
  match l, hl with
  | [a, b, c, d], _ =>
    simp only [List.all_cons, List.all_nil, Bool.and_eq_true, Bool.and_true] at hd
    obtain ⟨ha, hb, hc, hdd⟩ := hd
    have h1 := isDigitC_spec a ha
    have h2 := isDigitC_spec b hb
    have h3 := isDigitC_spec c hc
    have h4 := isDigitC_spec d hdd
    unfold digitsVal
    simp only [List.foldl]
    omega

theorem daysInMonth_le (y m : Nat) : daysInMonth y m ≤ 31 := by
  unfold daysInMonth
  split
  · split <;> norm_num
  · split <;> norm_num

/-- `msToDateOpt` only returns structurally valid dates. -/
theorem msToDateOpt_valid (ms : Int) (dt : Date) (h : msToDateOpt ms = some dt) :
    dt.valid = true := by
  rcases hcv : civilFromDays ((ms.fdiv 1000).fdiv 86400) with ⟨y, m, d⟩
  unfold msToDateOpt at h
  dsimp only at h
  rw [hcv] at h
  dsimp only at h
  split at h
  · split at h
    · simp only [Option.some_inj] at h
      subst h
      assumption
    · exact absurd h (by simp)
  · exact absurd h (by simp)

/-! ### Splitting lemmas -/

theorem splitOnC_ne_nil (c : Char) (l : List Char) : splitOnC c l ≠ [] := by
  cases l with
  | nil => simp [splitOnC]
  | cons x xs =>
    unfold splitOnC
    by_cases hx : x = c
    · simp [hx]
    · simp only [hx, if_neg, not_false_iff]
      cases splitOnC c xs <;> simp

theorem joinSep_splitOnC (c : Char) (l : List Char) :
    joinSep c (splitOnC c l) = l := by
  induction l with
  | nil => rfl
  | cons x xs ih =>
    unfold splitOnC
    by_cases hx : x = c
    · simp only [hx, if_pos]
      rcases hq : splitOnC c xs with _ | ⟨p, ps⟩
      · exact absurd hq (splitOnC_ne_nil c xs)
      · rw [hq] at ih
        simp [joinSep, ih, hx]
    · simp only [hx, if_neg, not_false_iff]
      rcases hq : splitOnC c xs with _ | ⟨p, ps⟩
      · exact absurd hq (splitOnC_ne_nil c xs)
      · rw [hq] at ih
        cases ps with
        | nil => simpa [joinSep] using congrArg (x :: ·) ih
        | cons q qs =>
          simp only [joinSep] at ih ⊢
          simpa using congrArg (x :: ·) ih

theorem splitOnC_no_sep (c : Char) (l : List Char) (h : c ∉ l) :
    splitOnC c l = [l] := by
  induction l with
  | nil => rfl
  | cons x xs ih =>
    simp only [List.mem_cons, not_or] at h
    unfold splitOnC
    have hx : ¬ x = c := fun hh => h.1 hh.symm
    simp only [hx, if_neg, not_false_iff]
    rw [ih h.2]

theorem splitOnC_append (c : Char) (a rest : List Char) (h : c ∉ a) :
    splitOnC c (a ++ c :: rest) = a :: splitOnC c rest := by
  induction a with
  | nil =>
    show splitOnC c (c :: rest) = [] :: splitOnC c rest
    conv_lhs => rw [splitOnC]
    simp
  | cons x xs ih =>
    simp only [List.mem_cons, not_or] at h
    have hx : ¬ x = c := fun hh => h.1 hh.symm
    show splitOnC c (x :: (xs ++ c :: rest)) = (x :: xs) :: splitOnC c rest
    conv_lhs => rw [splitOnC]
    rw [ih h.2]
    simp [hx]

theorem not_mem_of_all_digits (c : Char) (l : List Char)
    (hl : l.all isDigitC = true) (hc : isDigitC c = false) : c ∉ l := by
  intro hmem
  have := List.all_eq_true.mp hl c hmem
  rw [hc] at this
  exact absurd this (by simp)

/-! ### Component-parser characterizations -/

theorem parseDay_some (l : List Char) (d : Nat) (h : parseDay l = some d) :
    l.all isDigitC = true ∧ 1 ≤ d ∧ d ≤ 31 := by
  unfold parseDay at h
  split at h
  · next hc =>
    simp only [Bool.and_eq_true, Bool.or_eq_true, decide_eq_true_eq] at hc
    dsimp only at h
    split at h
    · next hv =>
      simp only [Bool.and_eq_true, decide_eq_true_eq] at hv
      simp only [Option.some_inj] at h
      exact ⟨hc.2, h ▸ hv.1, h ▸ hv.2⟩
    · exact absurd h (by simp)
  · exact absurd h (by simp)

theorem parseMonth_some (l : List Char) (m : Nat) (h : parseMonth l = some m) :
    l.all isDigitC = true ∧ 1 ≤ m ∧ m ≤ 12 := by
  unfold parseMonth at h
  split at h
  · next hc =>
    simp only [Bool.and_eq_true, Bool.or_eq_true, decide_eq_true_eq] at hc
    dsimp only at h
    split at h
    · next hv =>
      simp only [Bool.and_eq_true, decide_eq_true_eq] at hv
      simp only [Option.some_inj] at h
      exact ⟨hc.2, h ▸ hv.1, h ▸ hv.2⟩
    · exact absurd h (by simp)
  · exact absurd h (by simp)

theorem parseYear_some (l : List Char) (y : Nat) (h : parseYear l = some y) :
    l.all isDigitC = true ∧ y ≤ 9999 := by
  unfold parseYear at h
  split at h
  · next hc =>
    simp only [Bool.and_eq_true, decide_eq_true_eq] at hc
    simp only [Option.some_inj] at h
    exact ⟨hc.2, h ▸ digitsVal4_le l hc.1 hc.2⟩
  · exact absurd h (by simp)

theorem pad2_parseDay (d : Nat) (h1 : 1 ≤ d) (h2 : d ≤ 31) :
    parseDay (pad2 d) = some d := by
  unfold parseDay
  rw [digitsVal_pad2 d (by omega)]
  simp [pad2_length, pad2_all_digits, h1, h2]

theorem pad2_parseMonth (m : Nat) (h1 : 1 ≤ m) (h2 : m ≤ 12) :
    parseMonth (pad2 m) = some m := by
  unfold parseMonth
  rw [digitsVal_pad2 m (by omega)]
  simp [pad2_length, pad2_all_digits, h1, h2]

theorem pad4_parseYear (y : Nat) (h : y ≤ 9999) :
    parseYear (pad4 y) = some y := by
  unfold parseYear
  rw [digitsVal_pad4 y (by omega)]
  simp [pad4_length, pad4_all_digits]

theorem parseDay_pad4_none (y : Nat) : parseDay (pad4 y) = none := by
  unfold parseDay
  simp [pad4_length]

theorem parseMonth_pad4_none (y : Nat) : parseMonth (pad4 y) = none := by
  unfold parseMonth
  simp [pad4_length]

/-! ### Character classes of the canonical rendering -/

theorem renderDateL_chars (dt : Date) (c : Char) (h : c ∈ renderDateL dt) :
    isDigitC c = true ∨ c = '-' := by
  unfold renderDateL at h
  rcases List.mem_append.mp h with h1 | h1
  · exact Or.inl (List.all_eq_true.mp (pad4_all_digits dt.year) c h1)
  · rcases List.mem_cons.mp h1 with h2 | h2
    · exact Or.inr h2
    · rcases List.mem_append.mp h2 with h3 | h3
      · exact Or.inl (List.all_eq_true.mp (pad2_all_digits dt.month) c h3)
      · rcases List.mem_cons.mp h3 with h4 | h4
        · exact Or.inr h4
        · exact Or.inl (List.all_eq_true.mp (pad2_all_digits dt.day) c h4)

theorem dash_mem_renderDateL (dt : Date) : '-' ∈ renderDateL dt := by
  unfold renderDateL
  exact List.mem_append.mpr (Or.inr (List.mem_cons_self _ _))

theorem renderDateL_ne_nil (dt : Date) : renderDateL dt ≠ [] := by
  unfold renderDateL pad4
  simp

theorem no_slash_renderDateL (dt : Date) : '/' ∉ renderDateL dt := by
  intro h
  rcases renderDateL_chars dt '/' h with h' | h'
  · rw [not_digit_slash] at h'
    exact absurd h' (by simp)
  · exact absurd h' (by decide)

theorem no_T_renderDateL (dt : Date) : 'T' ∉ renderDateL dt := by
  intro h
  rcases renderDateL_chars dt 'T' h with h' | h'
  · rw [not_digit_T] at h'
    exact absurd h' (by simp)
  · exact absurd h' (by decide)

theorem no_space_renderDateL (dt : Date) : ' ' ∉ renderDateL dt := by
  intro h
  rcases renderDateL_chars dt ' ' h with h' | h'
  · rw [not_digit_space] at h'
    exact absurd h' (by simp)
  · exact absurd h' (by decide)

theorem no_dash_pad4 (n : Nat) : '-' ∉ pad4 n :=
  not_mem_of_all_digits '-' (pad4 n) (pad4_all_digits n) not_digit_dash

theorem no_dash_pad2 (n : Nat) : '-' ∉ pad2 n :=
  not_mem_of_all_digits '-' (pad2 n) (pad2_all_digits n) not_digit_dash

/-- Splitting the canonical rendering on `-` recovers the three components. -/
theorem splitOnC_renderDateL (dt : Date) :
    splitOnC '-' (renderDateL dt) = [pad4 dt.year, pad2 dt.month, pad2 dt.day] := by
  unfold renderDateL
  rw [splitOnC_append '-' (pad4 dt.year) _ (no_dash_pad4 dt.year),
      splitOnC_append '-' (pad2 dt.month) _ (no_dash_pad2 dt.month),
      splitOnC_no_sep '-' (pad2 dt.day) (no_dash_pad2 dt.day)]

/-- Round-trip: the five-format parse loop recovers a valid date from its
canonical `%Y-%m-%d` rendering (the four earlier formats all reject it). -/
theorem parse5_renderDateL (dt : Date) (hv : dt.valid = true) :
    parse5 (renderDateL dt) = some dt := by
  unfold Date.valid at hv
  simp only [Bool.and_eq_true, decide_eq_true_eq] at hv
  obtain ⟨⟨⟨⟨⟨hy1, hy2⟩, hm1⟩, hm2⟩, hd1⟩, hd2⟩ := hv
  have hsplit := splitOnC_renderDateL dt
  have hnosl := splitOnC_no_sep '/' (renderDateL dt) (no_slash_renderDateL dt)
  unfold parse5 parseDMY parseMDY parseYMD
  rw [hsplit, hnosl]
  dsimp only
  rw [parseDay_pad4_none, parseMonth_pad4_none,
      pad4_parseYear dt.year hy2, pad2_parseMonth dt.month hm1 hm2,
      pad2_parseDay dt.day hd1 (le_trans hd2 (daysInMonth_le dt.year dt.month))]
  simp [hy1, hd2]

/-- Anything accepted by `parseDMY` is a valid date whose source text is
digits and separators with at least one separator. -/
theorem parseDMY_props (sep : Char) (l : List Char) (dt : Date)
    (h : parseDMY sep l = some dt) :
    dt.valid = true ∧ (∀ c ∈ l, isDigitC c = true ∨ c = sep) ∧ sep ∈ l := by
  unfold parseDMY at h
  rcases hs : splitOnC sep l with _ | ⟨dc, tl⟩ <;> rw [hs] at h
  · simp at h
  rcases tl with _ | ⟨mc, tl2⟩
  · simp at h
  rcases tl2 with _ | ⟨yc, tl3⟩
  · simp at h
  rcases tl3 with _ | ⟨zc, tl4⟩
  · dsimp only at h
    rcases hd : parseDay dc with _ | d <;> rw [hd] at h
    · simp at h
    rcases hm : parseMonth mc with _ | m <;> rw [hm] at h
    · simp at h
    rcases hy : parseYear yc with _ | y <;> rw [hy] at h
    · simp at h
    dsimp only at h
    split at h
    · next hg =>
      simp only [Bool.and_eq_true, decide_eq_true_eq] at hg
      simp only [Option.some_inj] at h
      obtain ⟨hdg, hd1, hd2⟩ := parseDay_some dc d hd
      obtain ⟨hmg, hm1, hm2⟩ := parseMonth_some mc m hm
      obtain ⟨hyg, hy2⟩ := parseYear_some yc y hy
      have hjoin : dc ++ sep :: (mc ++ sep :: yc) = l := by
        have := joinSep_splitOnC sep l
        rw [hs] at this
        simpa [joinSep] using this
      subst h
      refine ⟨?_, ?_, ?_⟩
      · unfold Date.valid
        simp only [Bool.and_eq_true, decide_eq_true_eq]
        exact ⟨⟨⟨⟨⟨hg.1, hy2⟩, hm1⟩, hm2⟩, hd1⟩, hg.2⟩
      · intro c hc
        rw [← hjoin] at hc
        rcases List.mem_append.mp hc with h1 | h1
        · exact Or.inl (List.all_eq_true.mp hdg c h1)
        · rcases List.mem_cons.mp h1 with h2 | h2
          · exact Or.inr h2
          · rcases List.mem_append.mp h2 with h3 | h3
            · exact Or.inl (List.all_eq_true.mp hmg c h3)
            · rcases List.mem_cons.mp h3 with h4 | h4
              · exact Or.inr h4
              · exact Or.inl (List.all_eq_true.mp hyg c h4)
      · rw [← hjoin]
        exact List.mem_append.mpr (Or.inr (List.mem_cons_self _ _))
    · simp at h
  · simp at h

theorem parseMDY_props (sep : Char) (l : List Char) (dt : Date)
    (h : parseMDY sep l = some dt) :
    dt.valid = true ∧ (∀ c ∈ l, isDigitC c = true ∨ c = sep) ∧ sep ∈ l := by
  unfold parseMDY at h
  rcases hs : splitOnC sep l with _ | ⟨mc, tl⟩ <;> rw [hs] at h
  · simp at h
  rcases tl with _ | ⟨dc, tl2⟩
  · simp at h
  rcases tl2 with _ | ⟨yc, tl3⟩
  · simp at h
  rcases tl3 with _ | ⟨zc, tl4⟩
  · dsimp only at h
    rcases hm : parseMonth mc with _ | m <;> rw [hm] at h
    · simp at h
    rcases hd : parseDay dc with _ | d <;> rw [hd] at h
    · simp at h
    rcases hy : parseYear yc with _ | y <;> rw [hy] at h
    · simp at h
    dsimp only at h
    split at h
    · next hg =>
      simp only [Bool.and_eq_true, decide_eq_true_eq] at hg
      simp only [Option.some_inj] at h
      obtain ⟨hdg, hd1, hd2⟩ := parseDay_some dc d hd
      obtain ⟨hmg, hm1, hm2⟩ := parseMonth_some mc m hm
      obtain ⟨hyg, hy2⟩ := parseYear_some yc y hy
      have hjoin : mc ++ sep :: (dc ++ sep :: yc) = l := by
        have := joinSep_splitOnC sep l
        rw [hs] at this
        simpa [joinSep] using this
      subst h
      refine ⟨?_, ?_, ?_⟩
      · unfold Date.valid
        simp only [Bool.and_eq_true, decide_eq_true_eq]
        exact ⟨⟨⟨⟨⟨hg.1, hy2⟩, hm1⟩, hm2⟩, hd1⟩, hg.2⟩
      · intro c hc
        rw [← hjoin] at hc
        rcases List.mem_append.mp hc with h1 | h1
        · exact Or.inl (List.all_eq_true.mp hmg c h1)
        · rcases List.mem_cons.mp h1 with h2 | h2
          · exact Or.inr h2
          · rcases List.mem_append.mp h2 with h3 | h3
            · exact Or.inl (List.all_eq_true.mp hdg c h3)
            · rcases List.mem_cons.mp h3 with h4 | h4
              · exact Or.inr h4
              · exact Or.inl (List.all_eq_true.mp hyg c h4)
      · rw [← hjoin]
        exact List.mem_append.mpr (Or.inr (List.mem_cons_self _ _))
    · simp at h
  · simp at h

theorem parseYMD_props (l : List Char) (dt : Date)
    (h : parseYMD l = some dt) :
    dt.valid = true ∧ (∀ c ∈ l, isDigitC c = true ∨ c = '-') ∧ '-' ∈ l := by
  unfold parseYMD at h
  rcases hs : splitOnC '-' l with _ | ⟨yc, tl⟩ <;> rw [hs] at h
  · simp at h
  rcases tl with _ | ⟨mc, tl2⟩
  · simp at h
  rcases tl2 with _ | ⟨dc, tl3⟩
  · simp at h
  rcases tl3 with _ | ⟨zc, tl4⟩
  · dsimp only at h
    rcases hy : parseYear yc with _ | y <;> rw [hy] at h
    · simp at h
    rcases hm : parseMonth mc with _ | m <;> rw [hm] at h
    · simp at h
    rcases hd : parseDay dc with _ | d <;> rw [hd] at h
    · simp at h
    dsimp only at h
    split at h
    · next hg =>
      simp only [Bool.and_eq_true, decide_eq_true_eq] at hg
      simp only [Option.some_inj] at h
      obtain ⟨hdg, hd1, hd2⟩ := parseDay_some dc d hd
      obtain ⟨hmg, hm1, hm2⟩ := parseMonth_some mc m hm
      obtain ⟨hyg, hy2⟩ := parseYear_some yc y hy
      have hjoin : yc ++ '-' :: (mc ++ '-' :: dc) = l := by
        have := joinSep_splitOnC '-' l
        rw [hs] at this
        simpa [joinSep] using this
      subst h
      refine ⟨?_, ?_, ?_⟩
      · unfold Date.valid
        simp only [Bool.and_eq_true, decide_eq_true_eq]
        exact ⟨⟨⟨⟨⟨hg.1, hy2⟩, hm1⟩, hm2⟩, hd1⟩, hg.2⟩
      · intro c hc
        rw [← hjoin] at hc
        rcases List.mem_append.mp hc with h1 | h1
        · exact Or.inl (List.all_eq_true.mp hyg c h1)
        · rcases List.mem_cons.mp h1 with h2 | h2
          · exact Or.inr h2
          · rcases List.mem_append.mp h2 with h3 | h3
            · exact Or.inl (List.all_eq_true.mp hmg c h3)
            · rcases List.mem_cons.mp h3 with h4 | h4
              · exact Or.inr h4
              · exact Or.inl (List.all_eq_true.mp hdg c h4)
      · rw [← hjoin]
        exact List.mem_append.mpr (Or.inr (List.mem_cons_self _ _))
    · simp at h
  · simp at h

/-- Anything accepted by the five-format loop is a valid date whose source
text is digits plus `-`/`/`, containing a separator. -/
theorem parse5_props (l : List Char) (dt : Date) (h : parse5 l = some dt) :
    dt.valid = true ∧ (∀ c ∈ l, isDigitC c = true ∨ c = '-' ∨ c = '/') ∧
      ('-' ∈ l ∨ '/' ∈ l) := by
  unfold parse5 at h
  rcases h1 : parseDMY '-' l with _ | d1 <;> rw [h1] at h
  · rcases h2 : parseDMY '/' l with _ | d2 <;> rw [h2] at h
    · rcases h3 : parseMDY '-' l with _ | d3 <;> rw [h3] at h
      · rcases h4 : parseMDY '/' l with _ | d4 <;> rw [h4] at h
        · obtain ⟨hv, hc, hm⟩ := parseYMD_props l dt h
          exact ⟨hv, fun c hcc => (hc c hcc).imp id Or.inl, Or.inl hm⟩
        · simp only [Option.some_inj] at h
          obtain ⟨hv, hc, hm⟩ := parseMDY_props '/' l d4 h4
          exact ⟨h ▸ hv, fun c hcc => (hc c hcc).imp id (fun e => Or.inr e),
            Or.inr hm⟩
      · simp only [Option.some_inj] at h
        obtain ⟨hv, hc, hm⟩ := parseMDY_props '-' l d3 h3
        exact ⟨h ▸ hv, fun c hcc => (hc c hcc).imp id Or.inl, Or.inl hm⟩
    · simp only [Option.some_inj] at h
      obtain ⟨hv, hc, hm⟩ := parseDMY_props '/' l d2 h2
      exact ⟨h ▸ hv, fun c hcc => (hc c hcc).imp id (fun e => Or.inr e),
        Or.inr hm⟩
  · simp only [Option.some_inj] at h
    obtain ⟨hv, hc, hm⟩ := parseDMY_props '-' l d1 h1
    exact ⟨h ▸ hv, fun c hcc => (hc c hcc).imp id Or.inl, Or.inl hm⟩

/-! ### Substring and token lemmas -/

theorem infix_single (c : Char) (l : List Char) :
    infixOf [c] l = true ↔ c ∈ l := by
  induction l with
  | nil => simp [infixOf]
  | cons x xs ih =>
    unfold infixOf
    have hpre : [c].isPrefixOf (x :: xs) = (c == x) := by
      simp [List.isPrefixOf]
    rw [hpre]
    simp only [Bool.or_eq_true, beq_iff_eq, List.mem_cons, ih]

theorem infix_single_false (c : Char) (l : List Char) (h : c ∉ l) :
    infixOf [c] l = false := by
  cases hb : infixOf [c] l with
  | false => rfl
  | true => exact absurd ((infix_single c l).mp hb) h

theorem infix_single_true (c : Char) (l : List Char) (h : c ∈ l) :
    infixOf [c] l = true := (infix_single c l).mpr h

theorem takeWhile_all {p : Char → Bool} (l : List Char)
    (h : ∀ c ∈ l, p c = true) : l.takeWhile p = l :=
  List.takeWhile_eq_self_iff.mpr h

/-! ### Stability of the canonical rendering under normalization -/

/-- The date-normalization step leaves its own canonical output fixed. -/
theorem normalizeDateValue_render (dt : Date) (hv : dt.valid = true) :
    normalizeDateValue (vstr (renderDate dt)) = vstr (renderDate dt) := by
  have hdata : (renderDate dt).data = renderDateL dt := rfl
  have hne : renderDate dt ≠ "" := by
    intro hh
    exact renderDateL_ne_nil dt (congrArg String.data hh)
  have htruthy : (vstr (renderDate dt)).truthy = true := by
    simp [PyVal.truthy, hne]
  have hnotdig : isDigitStr (renderDate dt) = false := by
    unfold isDigitStr
    rw [hdata]
    have : (renderDateL dt).all isDigitC = false := by
      cases hb : (renderDateL dt).all isDigitC with
      | false => rfl
      | true =>
        have := List.all_eq_true.mp hb '-' (dash_mem_renderDateL dt)
        rw [not_digit_dash] at this
        exact absurd this (by simp)
    simp [this]
  have hfirst : firstTokenSpace (renderDate dt) = renderDate dt := by
    unfold firstTokenSpace
    rw [hdata]
    congr 1
    apply takeWhile_all
    intro c hc
    rcases renderDateL_chars dt c hc with h' | h'
    · simp only [decide_eq_true_eq]
      intro he
      rw [he, not_digit_space] at h'
      exact absurd h' (by simp)
    · simp [h']
  have hnoT : strContains (renderDate dt) "T" = false := by
    unfold strContains
    rw [hdata]
    exact infix_single_false 'T' _ (no_T_renderDateL dt)
  have hdash : strContains (renderDate dt) "-" = true := by
    unfold strContains
    rw [hdata]
    exact infix_single_true '-' _ (dash_mem_renderDateL dt)
  unfold normalizeDateValue
  rw [htruthy]
  simp only [Bool.not_true, Bool.false_eq_true, if_false]
  rw [hnotdig]
  simp only [Bool.false_eq_true, if_neg, not_false_iff]
  rw [hfirst, hnoT]
  simp only [Bool.false_eq_true, if_neg, not_false_iff]
  rw [hdash]
  simp only [Bool.true_or, if_pos]
  rw [hdata, parse5_renderDateL dt hv]
  simp

theorem normalize_fixed_iterate (v : PyVal) (h : normalizeDateValue v = v) :
    normalizeDateValue (normalizeDateValue v) = normalizeDateValue v := by
  rw [h, h]

/-- C6: the date-normalization step of `_populate_model_values` is idempotent
on every supported input encoding: a milliseconds-since-epoch integer, a
numeric string, and each of the five accepted string formats (`%d-%m-%Y`,
`%d/%m/%Y`, `%m-%d-%Y`, `%m/%d/%Y`, `%Y-%m-%d`), with or without a trailing
space-separated time component. -/
theorem C6_date_normalization_idempotent (v : PyVal)
    (h : supportedDateInput v = true) :
    normalizeDateValue (normalizeDateValue v) = normalizeDateValue v := by
  cases v with
  | vbool b => simp [supportedDateInput] at h
  | vnone => simp [supportedDateInput] at h
  | vint n =>
    by_cases hn : n = 0
    · subst hn
      apply normalize_fixed_iterate
      simp [normalizeDateValue, PyVal.truthy]
    · cases hm : msToDateOpt n with
      | none =>
        apply normalize_fixed_iterate
        simp [normalizeDateValue, PyVal.truthy, hn, hm]
      | some dt =>
        have h1 : normalizeDateValue (vint n) = vstr (renderDate dt) := by
          simp [normalizeDateValue, PyVal.truthy, hn, hm]
        rw [h1, normalizeDateValue_render dt (msToDateOpt_valid n dt hm)]
  | vstr s =>
    by_cases hdig : isDigitStr s = true
    · have hs : s ≠ "" := by
        unfold isDigitStr at hdig
        simp only [Bool.and_eq_true, decide_eq_true_eq] at hdig
        exact hdig.1
      cases hm : msToDateOpt ((digitsVal s.data : Nat) : Int) with
      | none =>
        apply normalize_fixed_iterate
        simp [normalizeDateValue, PyVal.truthy, hs, hdig, hm]
      | some dt =>
        have h1 : normalizeDateValue (vstr s) = vstr (renderDate dt) := by
          simp [normalizeDateValue, PyVal.truthy, hs, hdig, hm]
        rw [h1, normalizeDateValue_render dt (msToDateOpt_valid _ dt hm)]
    · have hd' : isDigitStr s = false := by
        cases hb : isDigitStr s with
        | true => exact absurd hb hdig
        | false => rfl
      have hp : (parse5 (firstTokenSpace s).data).isSome = true := by
        simp only [supportedDateInput, Bool.or_eq_true, hd',
          Bool.false_eq_true, false_or] at h
        exact h
      obtain ⟨dt, hdt⟩ := Option.isSome_iff_exists.mp hp
      obtain ⟨hv, hcls, hsep⟩ := parse5_props _ dt hdt
      have hs : s ≠ "" := by
        intro he
        subst he
        rw [show firstTokenSpace "" = "" from rfl] at hdt
        rw [show ("" : String).data = [] from rfl] at hdt
        rw [show parse5 [] = none from rfl] at hdt
        exact Option.noConfusion hdt
      have htr : (vstr s).truthy = true := by simp [PyVal.truthy, hs]
      have hnoT : strContains (firstTokenSpace s) "T" = false := by
        apply infix_single_false
        intro hmem
        rcases hcls 'T' hmem with h' | h' | h'
        · rw [not_digit_T] at h'
          exact absurd h' (by simp)
        · exact absurd h' (by decide)
        · exact absurd h' (by decide)
      have hcont : (strContains (firstTokenSpace s) "-" ||
          strContains (firstTokenSpace s) "/") = true := by
        rcases hsep with hm | hm
        · rw [show strContains (firstTokenSpace s) "-" =
              infixOf ['-'] (firstTokenSpace s).data from rfl,
            infix_single_true '-' _ hm]
          simp
        · rw [show strContains (firstTokenSpace s) "/" =
              infixOf ['/'] (firstTokenSpace s).data from rfl,
            infix_single_true '/' _ hm]
          simp
      have h1 : normalizeDateValue (vstr s) = vstr (renderDate dt) := by
        unfold normalizeDateValue
        rw [htr]
        simp only [Bool.not_true, Bool.false_eq_true, if_false]
        rw [hd']
        simp only [Bool.false_eq_true, if_neg, not_false_iff]
        rw [hnoT]
        simp only [Bool.false_eq_true, if_neg, not_false_iff]
        rw [hcont]
        simp only [if_pos]
        rw [hdt]
        simp
      rw [h1, normalizeDateValue_render dt hv]

/-- Witness for C6 at a concrete supported input. -/
theorem C6_date_normalization_idempotent_witness :
    supportedDateInput (vstr "14-11-2023 10:30:00") = true ∧
      normalizeDateValue (normalizeDateValue (vstr "14-11-2023 10:30:00")) =
        normalizeDateValue (vstr "14-11-2023 10:30:00") :=
  ⟨by decide, C6_date_normalization_idempotent _ (by decide)⟩

/-! ## C1: merge steps of the Value Aggregator -/

/-- C1 counterexample: the REST task-local runtime-variable step is a plain
`dict.update`, so a later empty value does overwrite an earlier non-empty
one — both at the isolated merge step and through the full `values_map`
assembly. -/
theorem C1_task_local_update_overwrites_counterexample :
    (vstr "Acme").truthy = true ∧
      getKey (mergeUpdate [("client", vstr "Acme")] [("client", vstr "")])
          "client" = some (vstr "") ∧
      getKey (mergeUpdate [("client", vstr "Acme")] [("client", vstr "")])
          "client" ≠ some (vstr "Acme") ∧
      getKey (aggregateValues [] [("client", vstr "Acme")]
          [("client", vstr "")] [] [] []) "client" = some (vstr "") := by
  refine ⟨rfl, ?_, ?_, ?_⟩ <;> decide

/-- C1 amended: of the three REST-backed sources, the process-instance
runtime-variable step and the historic-variable step (both `mergeFillGaps`)
never replace an existing non-empty value — they never touch an existing key
at all. -/
theorem C1_fill_gap_sources_preserve_nonempty (a b : VMap) (k : String)
    (v : PyVal) (hk : getKey a k = some v) (_hv : v.truthy = true) :
    getKey (mergeFillGaps a b) k = getKey a k := by
  rw [hk]
  exact mergeFillGaps_preserves a b k v hk

/-- Witness for the C1 amended theorem at a concrete map pair. -/
theorem C1_fill_gap_sources_preserve_nonempty_witness :
    getKey (mergeFillGaps [("client", vstr "Acme")] [("client", vstr "")])
        "client" = getKey [("client", vstr "Acme")] "client" :=
  C1_fill_gap_sources_preserve_nonempty _ _ "client" (vstr "Acme")
    (by decide) (by decide)

/-! ## C3: merging the flat form snapshot -/

/-- C3 counterexample: a value containing the generic placeholder `option 1`
IS merged when the field's type is not an option-bearing one (here `text`),
contradicting "never merged into the map for any field type". -/
theorem C3_generic_placeholder_merged_counterexample :
    strContains (lowerStr (pyStr (vstr "Option 1"))) "option 1" = true ∧
      getKey (flatMergeAll [] [⟨"x", "text", vstr "Option 1"⟩]) "x" =
        some (vstr "Option 1") := by
  constructor <;> decide

/-- C3 amended: in the flat-form snapshot merge, a `date`-typed field with a
non-null non-blank value always overrides the map entry under its id; a
non-`date` field never changes the map when its key is already present; and a
value containing the generic placeholder is skipped when (and only insofar
as) the field's type is option-bearing. -/
theorem C3_flat_snapshot_merge (m : VMap) (f : FlatField) :
    (f.fid ≠ "" → f.value ≠ vnone → pyTrim (pyStr f.value) ≠ "" →
      lowerStr f.ftype = "date" →
      getKey (flatMergeStep m f) f.fid = some f.value) ∧
    (lowerStr f.ftype ≠ "date" → hasKey m f.fid = true →
      flatMergeStep m f = m) ∧
    (strContains (lowerStr (pyStr f.value)) "option 1" = true →
      lowerStr f.ftype ∈ droplikeTypes →
      flatMergeStep m f = m) := by
  refine ⟨?_, ?_, ?_⟩
  · intro hid hnone hblank hdate
    unfold flatMergeStep
    rw [if_neg hid]
    have hvb : (f.value = vnone || pyTrim (pyStr f.value) = "") = false := by
      simp [hnone, hblank]
    rw [hvb]
    simp only [Bool.false_eq_true, if_neg, not_false_iff]
    have hng : decide (lowerStr f.ftype ∈ droplikeTypes) = false := by
      rw [hdate]
      decide
    rw [hng]
    simp only [Bool.and_false, Bool.false_eq_true, if_neg, not_false_iff]
    rw [if_pos hdate]
    exact getKey_setKey_self m f.fid f.value
  · intro hnd hk
    unfold flatMergeStep
    by_cases hid : f.fid = ""
    · rw [if_pos hid]
    · rw [if_neg hid]
      by_cases hvb : (f.value = vnone || pyTrim (pyStr f.value) = "") = true
      · rw [if_pos hvb]
      · rw [if_neg hvb]
        by_cases hg : (strContains (lowerStr (pyStr f.value)) "option 1" &&
            decide (lowerStr f.ftype ∈ droplikeTypes)) = true
        · rw [if_pos hg]
        · rw [if_neg hg, if_neg hnd, if_pos hk]
  · intro hgen hdrop
    unfold flatMergeStep
    by_cases hid : f.fid = ""
    · rw [if_pos hid]
    · rw [if_neg hid]
      by_cases hvb : (f.value = vnone || pyTrim (pyStr f.value) = "") = true
      · rw [if_pos hvb]
      · rw [if_neg hvb]
        have hg : (strContains (lowerStr (pyStr f.value)) "option 1" &&
            decide (lowerStr f.ftype ∈ droplikeTypes)) = true := by
          simp [hgen, hdrop]
        rw [if_pos hg]

/-- Unfolding of `Date.valid` into arithmetic. -/
theorem date_valid_arith (a b c : Nat) :
    Date.valid ⟨a, b, c⟩ = true ↔
      1 ≤ a ∧ a ≤ 9999 ∧ 1 ≤ b ∧ b ≤ 12 ∧ 1 ≤ c ∧ c ≤ daysInMonth a b := by
  unfold Date.valid
  simp [Bool.and_eq_true, decide_eq_true_eq, and_assoc]

set_option maxHeartbeats 1000000 in
set_option maxRecDepth 8000 in
/-- Within the claim's timestamp window, `civilFromDays` lands on a valid
calendar date in 2001-2065. -/
theorem civilFromDays_window (z : Int) (h1 : 11574 ≤ z) (h2 : z ≤ 34722) :
    1 ≤ (civilFromDays z).1 ∧ (civilFromDays z).1 ≤ 9999 ∧
      Date.valid ⟨(civilFromDays z).1.toNat, (civilFromDays z).2.1,
        (civilFromDays z).2.2⟩ = true := by
  unfold civilFromDays
  dsimp only
  rw [Int.fdiv_eq_ediv _ (by norm_num : (0 : Int) ≤ 146097)]
  have hera : (z + 719468) / 146097 = 5 := by omega
  rw [hera]
  have hb1 : 557 ≤ (z + 719468 - 5 * 146097).toNat := by omega
  have hb2 : (z + 719468 - 5 * 146097).toNat ≤ 23705 := by omega
  generalize hG : (z + 719468 - 5 * 146097).toNat = doe at hb1 hb2 ⊢
  clear hG hera h1 h2
  have h3 : doe / 36524 = 0 := by omega
  have h4 : doe / 146096 = 0 := by omega
  rw [h3, h4]
  set yoe := (doe - doe / 1460 + 0 - 0) / 365 with hyoe
  have hylo : 1 ≤ yoe := by omega
  have hyhi : yoe ≤ 64 := by omega
  have h100 : yoe / 100 = 0 := by omega
  rw [h100]
  set doy := doe - (365 * yoe + yoe / 4 - 0) with hdoy
  have hdoy2 : doy ≤ 365 := by omega
  have hs4 : yoe % 4 < 4 := Nat.mod_lt _ (by norm_num)
  have hleap : doy = 365 → (yoe + 1) % 4 = 0 := by
    intro hh
    have hmod := Nat.div_add_mod yoe 4
    interval_cases hsv : (yoe % 4) <;> omega
  set mp := (5 * doy + 2) / 153 with hmp
  have hmp11 : mp ≤ 11 := by omega
  refine ⟨?_, ?_, ?_⟩
  · split_ifs <;> omega
  · split_ifs <;> omega
  · rw [date_valid_arith]
    have hyv1 : ((yoe : Int) + 5 * 400 + 1).toNat = yoe + 2001 := by omega
    have hyv0 : ((yoe : Int) + 5 * 400).toNat = yoe + 2000 := by omega
    simp only [apply_ite Int.toNat, hyv1, hyv0]
    refine ⟨?_, ?_, ?_, ?_, ?_, ?_⟩
    · split_ifs <;> omega
    · split_ifs <;> omega
    · split_ifs <;> omega
    · split_ifs <;> omega
    · omega
    · interval_cases mp <;>
        (try simp only [daysInMonth]) <;>
        (try norm_num) <;>
        (try split_ifs) <;>
          first
            | omega
            | (unfold isLeap at *
               simp only [Bool.or_eq_true, Bool.and_eq_true, Bool.not_eq_true',
                 decide_eq_true_eq, decide_eq_false_iff_not] at *
               omega)

/-- Within the claim's window, `msToDateOpt` always produces a date. -/
theorem msToDateOpt_window (ms : Int) (h1 : 1000000000000 < ms)
    (h2 : ms < 3000000000000) : ∃ dt, msToDateOpt ms = some dt := by
  have hdl : 11574 ≤ (ms.fdiv 1000).fdiv 86400 := by
    rw [Int.fdiv_eq_ediv _ (by norm_num : (0 : Int) ≤ 1000),
      Int.fdiv_eq_ediv _ (by norm_num : (0 : Int) ≤ 86400)]
    omega
  have hdu : (ms.fdiv 1000).fdiv 86400 ≤ 34722 := by
    rw [Int.fdiv_eq_ediv _ (by norm_num : (0 : Int) ≤ 1000),
      Int.fdiv_eq_ediv _ (by norm_num : (0 : Int) ≤ 86400)]
    omega
  obtain ⟨hv1, hv2, hv3⟩ := civilFromDays_window _ hdl hdu
  unfold msToDateOpt
  dsimp only
  rcases hcv : civilFromDays ((ms.fdiv 1000).fdiv 86400) with ⟨y, m, d⟩
  rw [hcv] at hv1 hv2 hv3
  dsimp only at hv1 hv2 hv3 ⊢
  rw [if_pos ⟨hv1, hv2⟩, if_pos hv3]
  exact ⟨_, rfl⟩

/-- C4: for a serializable history variable whose blob contains the
`0x78 0x70` marker followed by at least 8 bytes (and no other populated value
column), the variable's value is the `YYYY-MM-DD` date of the 8-byte
big-endian signed integer after the marker, read as milliseconds since the
epoch, exactly when that integer lies strictly between 1000000000000 and
3000000000000; otherwise the variable is dropped from the result. -/
theorem C4_serializable_binary_date_decode (bs : List Nat) (i : Nat)
    (nm : String) (tk pid : Option String)
    (hm : findMarker bs = some i) (hlen : i + 10 ≤ bs.length) :
    ((1000000000000 < beSigned ((bs.drop (i + 2)).take 8) ∧
        beSigned ((bs.drop (i + 2)).take 8) < 3000000000000) →
      ∃ dt, msToDateOpt (beSigned ((bs.drop (i + 2)).take 8)) = some dt ∧
        rowValue ⟨nm, "serializable", none, none, none, some bs, tk, pid⟩ =
          some (vstr (renderDate dt)) ∧
        processVarRow ⟨nm, "serializable", none, none, none, some bs, tk, pid⟩ =
          some (nm, vstr (renderDate dt))) ∧
    (¬(1000000000000 < beSigned ((bs.drop (i + 2)).take 8) ∧
        beSigned ((bs.drop (i + 2)).take 8) < 3000000000000) →
      rowValue ⟨nm, "serializable", none, none, none, some bs, tk, pid⟩ =
          none ∧
      processVarRow ⟨nm, "serializable", none, none, none, some bs, tk, pid⟩ =
          none) := by
  have hbt : bytesTruthy (some bs) = true := by
    unfold bytesTruthy
    have hl : 10 ≤ bs.length := by omega
    cases bs with
    | nil => simp at hl
    | cons a t => simp
  have hps : parseSerializableDate bs =
      (if 1000000000000 < beSigned ((bs.drop (i + 2)).take 8) ∧
          beSigned ((bs.drop (i + 2)).take 8) < 3000000000000 then
        msToDateOpt (beSigned ((bs.drop (i + 2)).take 8))
      else none) := by
    unfold parseSerializableDate
    rw [hm]
    dsimp only
    rw [if_pos hlen]
  have hguard : ¬ (("serializable" = "date" ∨ "serializable" = "jodadate") ∧
      (none : Option Int).isSome = true) := by
    rintro ⟨h1 | h1, _⟩ <;> exact absurd h1 (by decide)
  constructor
  · intro hwin
    obtain ⟨dt, hdt⟩ := msToDateOpt_window _ hwin.1 hwin.2
    have hrv : rowValue ⟨nm, "serializable", none, none, none, some bs, tk, pid⟩ =
        some (vstr (renderDate dt)) := by
      unfold rowValue
      dsimp only
      rw [if_neg hguard, if_pos ⟨rfl, hbt⟩, hps, if_pos hwin, hdt]
      rfl
    refine ⟨dt, hdt, hrv, ?_⟩
    unfold processVarRow
    rw [hrv]
    simp
  · intro hwin
    have hrv : rowValue ⟨nm, "serializable", none, none, none, some bs, tk, pid⟩ =
        none := by
      unfold rowValue
      dsimp only
      rw [if_neg hguard, if_pos ⟨rfl, hbt⟩, hps, if_neg hwin]
      rfl
    refine ⟨hrv, ?_⟩
    unfold processVarRow
    rw [hrv]
    simp [hbt]

/-- Witness for C4: a blob carrying 1700000000000 decodes to 2023-11-14, and
a blob carrying 999999999999 is dropped. -/
theorem C4_serializable_binary_date_decode_witness :
    processVarRow ⟨"surveydate", "serializable", none, none, none,
        some [120, 112, 0, 0, 1, 139, 207, 229, 104, 0], none, none⟩ =
      some ("surveydate", vstr "2023-11-14") ∧
    processVarRow ⟨"surveydate", "serializable", none, none, none,
        some [120, 112, 0, 0, 0, 232, 212, 165, 15, 255], none, none⟩ =
      none := by
  constructor
  · obtain ⟨dt, hdt, hrow, hproc⟩ :=
      (C4_serializable_binary_date_decode
        [120, 112, 0, 0, 1, 139, 207, 229, 104, 0] 0 "surveydate" none none
        (by decide) (by decide)).1 (by decide)
    have hdt14 : dt = ⟨2023, 11, 14⟩ := by
      have h2 : some dt = some (⟨2023, 11, 14⟩ : Date) := by
        rw [← hdt]
        decide
      exact Option.some_inj.mp h2
    rw [hdt14] at hproc
    exact hproc
  · exact ((C4_serializable_binary_date_decode
      [120, 112, 0, 0, 0, 232, 212, 165, 15, 255] 0 "surveydate" none none
      (by decide) (by decide)).2 (by decide)).2

theorem headlineStep_preserves_type (f : Field) (n : Option Field)
    (htt : strContains (lowerStr f.fname) "time taken" = true)
    (hnr : strContains (lowerStr f.fname) "reason for non-ftr" = false) :
    (headlineStep f n).ftype = f.ftype := by
  unfold headlineStep
  dsimp only
  cases n with
  | none => split_ifs <;> first | rfl | simp_all
  | some nf => split_ifs <;> first | rfl | simp_all

theorem identifyHeadlinesList_length (fs : List Field) :
    (identifyHeadlinesList fs).length = fs.length := by
  induction fs with
  | nil => rfl
  | cons f rest ih =>
    cases rest with
    | nil => rfl
    | cons g r =>
      unfold identifyHeadlinesList
      simpa using ih

/-- C8 counterexample: the fixed-phrase rule reclassifies a text field whose
name contains BOTH "time taken" and "reason for non-ftr" to a header, so the
claim's unconditional "never" fails. -/
theorem C8_time_taken_reclassified_counterexample :
    strContains
        (lowerStr (Field.fname
          (Field.mk "" "Time Taken Reason for Non-FTR" "text" vnone [] false
            [] []))) "time taken" = true ∧
      (identifyHeadlinesList
          [Field.mk "" "Time Taken Reason for Non-FTR" "text" vnone [] false
            [] []]).map Field.ftype = ["header"] := by
  constructor <;> decide

/-- C8 amended: `_identify_headlines` never changes the type of a field whose
name contains "time taken" (case-insensitively), unless the name also
matches the fixed phrase "reason for non-ftr" (whose rule carries no
"time taken" exclusion); in particular the boolean-adjacency rule never
reclassifies such a field, regardless of type, read-only flag, value or
position. -/
theorem C8_time_taken_never_headline (fs : List Field) (i : Nat) (d : Field)
    (htt : strContains (lowerStr (Field.fname (fs.getD i d))) "time taken" =
      true)
    (hnr : strContains (lowerStr (Field.fname (fs.getD i d)))
      "reason for non-ftr" = false) :
    Field.ftype ((identifyHeadlinesList fs).getD i d) =
      Field.ftype (fs.getD i d) := by
  induction fs generalizing i with
  | nil => rfl
  | cons f rest ih =>
    cases rest with
    | nil =>
      cases i with
      | zero => exact headlineStep_preserves_type f none htt hnr
      | succ j => rfl
    | cons g r =>
      cases i with
      | zero => exact headlineStep_preserves_type f (some g) htt hnr
      | succ j => exact ih j htt hnr

/-- Witness for C8: a read-only text field named "Time Taken" directly before
a boolean field keeps its type. -/
theorem C8_time_taken_never_headline_witness :
    Field.ftype ((identifyHeadlinesList
        [Field.mk "tt" "Time Taken" "text" vnone [] true [] [],
         Field.mk "b" "Done" "boolean" vnone [] false [] []]).getD 0
      (Field.mk "" "" "" vnone [] false [] [])) =
      Field.ftype ([Field.mk "tt" "Time Taken" "text" vnone [] true [] [],
         Field.mk "b" "Done" "boolean" vnone [] false [] []].getD 0
      (Field.mk "" "" "" vnone [] false [] [])) :=
  C8_time_taken_never_headline _ 0 _ (by decide) (by decide)

/-- C9 counterexample: a 204 (a 2xx success status) on the claim call yields
`(False, ...)`, and a 304 (non-2xx) on the submit call yields `(True, "")`,
refuting "non-2xx yields False, successful status yields True". -/
theorem C9_status_mapping_counterexample :
    claimTask (fun _ => .resp ⟨204, none, ""⟩) "http://f" "t1" "u1" =
        (false, "") ∧
      200 ≤ 204 ∧ 204 < 300 ∧
      submitTaskForm (fun _ => .resp ⟨304, none, ""⟩) "http://f" [] none =
        (true, "") ∧
      ¬ (200 ≤ 304 ∧ 304 < 300) := by
  refine ⟨by decide, by norm_num, by norm_num, by decide, by norm_num⟩

/-- C9 amended: both calls always return a `(success, message)` pair (they
are total functions of the transport oracle — no exception escapes);
`_submit_task_form` fails exactly on transport errors and statuses 400-599
(with one fallback retry when the primary path 404s, the fallback's outcome
deciding), and `_claim_task` succeeds exactly on status 200. -/
theorem C9_submit_claim_outcomes (post : String → HttpResult)
    (base taskId userId : String) (fields : List (String × String))
    (outcome : Option String) (hbase : rstripSlash base ≠ "") :
    (∀ m, post (rstripSlash base ++ "/process-api/form/form-data") = .exn m →
      submitTaskForm post base fields outcome = (false, m)) ∧
    (∀ r, post (rstripSlash base ++ "/process-api/form/form-data") = .resp r →
      r.status = 404 →
      (∀ m2, post (rstripSlash base ++ "/form-api/form-data") = .exn m2 →
        submitTaskForm post base fields outcome = (false, m2)) ∧
      (∀ r2, post (rstripSlash base ++ "/form-api/form-data") = .resp r2 →
        (400 ≤ r2.status ∧ r2.status < 600 →
          submitTaskForm post base fields outcome = (false, httpErrMsg r2)) ∧
        (¬ (400 ≤ r2.status ∧ r2.status < 600) →
          submitTaskForm post base fields outcome = (true, "")))) ∧
    (∀ r, post (rstripSlash base ++ "/process-api/form/form-data") = .resp r →
      r.status ≠ 404 →
      (400 ≤ r.status ∧ r.status < 600 →
        submitTaskForm post base fields outcome = (false, httpErrMsg r)) ∧
      (¬ (400 ≤ r.status ∧ r.status < 600) →
        submitTaskForm post base fields outcome = (true, ""))) ∧
    (∀ m, post (rstripSlash base ++ "/process-api/runtime/tasks/" ++ taskId) =
        .exn m →
      claimTask post base taskId userId = (false, m)) ∧
    (∀ r, post (rstripSlash base ++ "/process-api/runtime/tasks/" ++ taskId) =
        .resp r →
      (r.status = 200 → claimTask post base taskId userId = (true, "")) ∧
      (r.status ≠ 200 →
        claimTask post base taskId userId =
          (false, r.jsonMessage.getD r.text))) := by
  refine ⟨?_, ?_, ?_, ?_, ?_⟩
  · intro m hm
    unfold submitTaskForm
    rw [if_neg hbase, hm]
  · intro r hr h404
    constructor
    · intro m2 hm2
      unfold submitTaskForm
      rw [if_neg hbase, hr]
      dsimp only
      rw [if_pos h404, hm2]
    · intro r2 hr2
      constructor
      · intro herr
        unfold submitTaskForm
        rw [if_neg hbase, hr]
        dsimp only
        rw [if_pos h404, hr2]
        dsimp only
        rw [if_pos herr]
      · intro hok
        unfold submitTaskForm
        rw [if_neg hbase, hr]
        dsimp only
        rw [if_pos h404, hr2]
        dsimp only
        rw [if_neg hok]
  · intro r hr h404
    constructor
    · intro herr
      unfold submitTaskForm
      rw [if_neg hbase, hr]
      dsimp only
      rw [if_neg h404, if_pos herr]
    · intro hok
      unfold submitTaskForm
      rw [if_neg hbase, hr]
      dsimp only
      rw [if_neg h404, if_neg hok]
  · intro m hm
    unfold claimTask
    rw [if_neg hbase, hm]
  · intro r hr
    constructor
    · intro h200
      unfold claimTask
      rw [if_neg hbase, hr]
      dsimp only
      rw [if_neg (by simp [h200])]
    · intro h200
      unfold claimTask
      rw [if_neg hbase, hr]
      dsimp only
      rw [if_pos h200]

/-- Witness for C9: a 404 on the primary path followed by a 200 on the
fallback path yields success. -/
theorem C9_submit_claim_outcomes_witness :
    submitTaskForm
        (fun u => if u = "http://f/process-api/form/form-data" then
            .resp ⟨404, none, ""⟩
          else .resp ⟨200, none, ""⟩) "http://f" [] none = (true, "") :=
  ((((C9_submit_claim_outcomes
      (fun u => if u = "http://f/process-api/form/form-data" then
          .resp ⟨404, none, ""⟩
        else .resp ⟨200, none, ""⟩) "http://f" "t1" "u1" [] none
      (by decide)).2.1 ⟨404, none, ""⟩ (by decide) rfl).2 ⟨200, none, ""⟩
      (by decide)).2 (by decide))

theorem stats_fold_spec (db : Db) (rows : List TaskRow) (acc : StatsResult) :
    (rows.foldl
      (fun acc t =>
        { completed := acc.completed + (if t.endTime.isSome then 1 else 0)
          pending := acc.pending + (if t.endTime.isSome then 0 else 1)
          tasks := acc.tasks ++ [statsEntryOf db t] }) acc) =
      ⟨acc.completed + rows.countP (fun t => t.endTime.isSome),
       acc.pending + rows.countP (fun t => t.endTime = none),
       acc.tasks ++ rows.map (statsEntryOf db)⟩ := by
  induction rows generalizing acc with
  | nil => simp [List.countP, List.countP.go]
  | cons t rest ih =>
    simp only [List.foldl_cons, ih, List.countP_cons, List.map_cons]
    cases ht : t.endTime with
    | none => simp [ht, StatsResult.mk.injEq]
      <;> omega
    | some d => simp [ht, StatsResult.mk.injEq]
      <;> omega

theorem zip_map_self {α β : Type} (f : α → β) (l : List α) :
    ∀ pr ∈ l.zip (l.map f), pr.2 = f pr.1 := by
  induction l with
  | nil => intro pr h; simp at h
  | cons a rest ih =>
    intro pr h
    simp only [List.map_cons, List.zip_cons_cons, List.mem_cons] at h
    rcases h with h | h
    · rw [h]
    · exact ih pr h

/-- C10: in every result of `get_user_task_stats`, completed plus pending
counts the listed tasks, and each listed task is `Completed` exactly when
its source history row has a non-null end time, `Pending` exactly when it
does not. -/
theorem C10_stats_summary_invariant (db : Db) (u : String)
    (site activity : String) :
    (getUserTaskStats db u site activity).completed +
        (getUserTaskStats db u site activity).pending =
      (getUserTaskStats db u site activity).tasks.length ∧
    (getUserTaskStats db u site activity).tasks.length =
      (statsSelectedRows db u site activity).length ∧
    ∀ pr ∈ (statsSelectedRows db u site activity).zip
        (getUserTaskStats db u site activity).tasks,
      (pr.2.status = "Completed" ↔ pr.1.endTime.isSome = true) ∧
      (pr.2.status = "Pending" ↔ pr.1.endTime = none) := by
  have hfold := stats_fold_spec db (statsSelectedRows db u site activity)
    ⟨0, 0, []⟩
  unfold getUserTaskStats
  rw [hfold]
  dsimp only
  refine ⟨?_, ?_, ?_⟩
  · simp only [List.length_map, Nat.zero_add, List.nil_append]
    induction statsSelectedRows db u site activity with
    | nil => simp
    | cons t rest ih =>
      simp only [List.countP_cons, List.length_cons]
      cases ht : t.endTime with
      | none => simp [ht] at ih ⊢ <;> omega
      | some d => simp [ht] at ih ⊢ <;> omega
  · simp
  · intro pr hpr
    simp only [List.nil_append] at hpr
    have h2 := zip_map_self (statsEntryOf db) _ pr hpr
    rw [h2]
    unfold statsEntryOf
    dsimp only
    cases ht : pr.1.endTime with
    | none => simp [ht]
    | some d => simp [ht]

/-- Witness for C10 at a concrete one-row database. -/
theorem C10_stats_summary_invariant_witness :
    ((getUserTaskStats
        ⟨[⟨"t1", some "Review", some ⟨"2025-01-01 10:00"⟩, none, some "p1",
            some "alice"⟩],
          [⟨"siteid", "string", some "S-9", none, none, none, none,
            some "p1"⟩], [], [], [], []⟩ "alice" "" "").tasks.map
      StatsEntry.status) = ["Pending"] ∧
    ((⟨"t1", some "Review", some ⟨"2025-01-01 10:00"⟩, none, some "p1",
          some "alice"⟩ : TaskRow),
        (⟨"t1", some "Review", some "S-9", none, "Pending",
          "2025-01-01 10:00", some "p1"⟩ : StatsEntry)).2.status = "Pending" ∧
    (((⟨"t1", some "Review", some ⟨"2025-01-01 10:00"⟩, none, some "p1",
          some "alice"⟩ : TaskRow),
        (⟨"t1", some "Review", some "S-9", none, "Pending",
          "2025-01-01 10:00", some "p1"⟩ : StatsEntry)).1.endTime = none) := by
  refine ⟨by decide, ?_, by decide⟩
  exact ((C10_stats_summary_invariant
    ⟨[⟨"t1", some "Review", some ⟨"2025-01-01 10:00"⟩, none, some "p1",
        some "alice"⟩],
      [⟨"siteid", "string", some "S-9", none, none, none, none, some "p1"⟩],
      [], [], [], []⟩ "alice" "" "").2.2 _ (by decide)).2.mpr (by decide)

/-- C5: a task detail is returned iff the task exists and the user is its
assignee, or it is unassigned and the user is a resolved candidate (by user
id or group id on a candidate identity link, runtime table first, history
table as fallback); a task assigned to another user yields `none` exactly
like a nonexistent task; and a candidate-only access yields
`can_claim = true`, `is_assignee = false`. -/
theorem C5_task_detail_permission (db : Db) (userId taskId : String) :
    (db.tasks.find? (fun t => t.id = taskId) = none →
      loadTaskDetail db userId taskId = none) ∧
    (∀ t, db.tasks.find? (fun t => t.id = taskId) = some t →
      ((loadTaskDetail db userId taskId).isSome = true ↔
        (t.assignee = some userId ∨
          (truthyOptStr t.assignee = false ∧
            isCandidate db taskId userId = true)))) ∧
    (∀ t, db.tasks.find? (fun t => t.id = taskId) = some t →
      t.assignee ≠ some userId → truthyOptStr t.assignee = true →
      loadTaskDetail db userId taskId = none) ∧
    (∀ t, db.tasks.find? (fun t => t.id = taskId) = some t →
      t.assignee ≠ some userId → truthyOptStr t.assignee = false →
      isCandidate db taskId userId = true →
      ∃ d, loadTaskDetail db userId taskId = some d ∧
        d.canClaim = true ∧ d.isAssignee = false) := by
  refine ⟨?_, ?_, ?_, ?_⟩
  · intro hfind
    unfold loadTaskDetail
    rw [hfind]
  · intro t hfind
    unfold loadTaskDetail
    rw [hfind]
    dsimp only
    by_cases ha : t.assignee = some userId
    · rw [if_pos ha]
      simp [ha]
    · rw [if_neg ha]
      by_cases htr : truthyOptStr t.assignee = true
      · rw [if_pos htr]
        simp [ha, htr]
      · have htr' : truthyOptStr t.assignee = false := by
          cases hb : truthyOptStr t.assignee with
          | true => exact absurd hb htr
          | false => rfl
        rw [if_neg htr]
        by_cases hc : isCandidate db taskId userId = true
        · rw [if_pos hc]
          simp [ha, htr', hc]
        · have hc' : isCandidate db taskId userId = false := by
            cases hb : isCandidate db taskId userId with
            | true => exact absurd hb hc
            | false => rfl
          rw [if_neg hc]
          simp [ha, htr', hc']
  · intro t hfind ha htr
    unfold loadTaskDetail
    rw [hfind]
    dsimp only
    rw [if_neg ha, if_pos htr]
  · intro t hfind ha htr hc
    unfold loadTaskDetail
    rw [hfind]
    dsimp only
    rw [if_neg ha, if_neg (by rw [htr]; exact fun hh => absurd hh (by simp)),
      if_pos hc]
    exact ⟨mkDetail db t true false, rfl, rfl, rfl⟩

/-- Witness for C5: an unassigned task with only a group candidate link in
the history table is visible to a member of that group, with
`can_claim = true` and `is_assignee = false`. -/
theorem C5_task_detail_permission_witness :
    ∃ d, loadTaskDetail
        ⟨[⟨"t7", some "Approve", some ⟨"2025-02-02 09:00"⟩, none, some "p7",
            none⟩], [], [],
          [⟨some "t7", some "candidate", none, some "G"⟩],
          [("bob", "G")], []⟩ "bob" "t7" = some d ∧
      d.canClaim = true ∧ d.isAssignee = false :=
  (C5_task_detail_permission
    ⟨[⟨"t7", some "Approve", some ⟨"2025-02-02 09:00"⟩, none, some "p7",
        none⟩], [], [],
      [⟨some "t7", some "candidate", none, some "G"⟩],
      [("bob", "G")], []⟩ "bob" "t7").2.2.2
    ⟨"t7", some "Approve", some ⟨"2025-02-02 09:00"⟩, none, some "p7", none⟩
    (by decide) (by decide) (by decide) (by decide)

/-! ## C2 and C7: properties of the populate pipeline -/

theorem setKey_values (P : PyVal → Prop) (m : VMap) (k : String) (v : PyVal)
    (hm : ∀ kv ∈ m, P kv.2) (hv : P v) : ∀ kv ∈ setKey m k v, P kv.2 := by
  intro kv hkv
  unfold setKey at hkv
  split at hkv
  · rcases List.mem_map.mp hkv with ⟨p, hp, hpe⟩
    by_cases hpk : p.1 = k
    · rw [if_pos hpk] at hpe
      rw [← hpe]
      exact hv
    · rw [if_neg hpk] at hpe
      rw [← hpe]
      exact hm p hp
  · rcases List.mem_append.mp hkv with h | h
    · exact hm kv h
    · rcases List.mem_singleton.mp h with rfl
      exact hv

theorem buildMap_values (P : PyVal → Prop) (f : String → String) (vm : VMap) :
    ∀ (acc : VMap), (∀ kv ∈ acc, P kv.2) → (∀ kv ∈ vm, P kv.2) →
      ∀ kv ∈ vm.foldl (fun a kv => setKey a (f kv.1) kv.2) acc, P kv.2 := by
  induction vm with
  | nil => intro acc hacc _ kv hkv; exact hacc kv hkv
  | cons p rest ih =>
    intro acc hacc hvm kv hkv
    simp only [List.foldl_cons] at hkv
    exact ih (setKey acc (f p.1) p.2)
      (setKey_values P acc (f p.1) p.2 hacc (hvm p (List.mem_cons_self p rest)))
      (fun q hq => hvm q (List.mem_cons_of_mem p hq)) kv hkv

theorem normMap_values (P : PyVal → Prop) (vm : VMap)
    (h : ∀ kv ∈ vm, P kv.2) : ∀ kv ∈ normMap vm, P kv.2 := by
  intro kv hkv
  exact buildMap_values P lowerStr vm [] (by intro q hq; simp at hq) h kv hkv

theorem fuzzyMap_values (P : PyVal → Prop) (vm : VMap)
    (h : ∀ kv ∈ vm, P kv.2) : ∀ kv ∈ fuzzyMap vm, P kv.2 := by
  intro kv hkv
  exact buildMap_values P (fun s => stripSeps (lowerStr s)) vm []
    (by intro q hq; simp at hq) h kv hkv

theorem getKey_prop (P : PyVal → Prop) (m : VMap) (k : String) (v : PyVal)
    (hm : ∀ kv ∈ m, P kv.2) (h : getKey m k = some v) : P v := by
  unfold getKey at h
  rcases hf : m.find? (fun p => p.1 = k) with _ | ⟨p⟩
  · rw [hf] at h
    exact Option.noConfusion h
  · rw [hf] at h
    have hv2 : p.2 = v := Option.some_inj.mp h
    rw [← hv2]
    exact hm p (List.mem_of_find?_eq_some hf)

theorem firstHit_prop (P : PyVal → Prop) (nm : VMap) (v : PyVal)
    (hm : ∀ kv ∈ nm, P kv.2) :
    ∀ (ks : List String), firstHit nm ks = some v → P v := by
  intro ks
  induction ks with
  | nil => intro h; simp [firstHit] at h
  | cons k rest ih =>
    intro h
    unfold firstHit at h
    rcases hk : getKey nm k with _ | ⟨w⟩ <;> rw [hk] at h
    · exact ih h
    · exact getKey_prop P nm k v hm (by rw [hk, Option.some_inj.mp h])

theorem optMatch_getD (o : Option PyVal) (v : PyVal) :
    (match o with | some w => w | none => v) = o.getD v := by
  cases o <;> rfl

theorem stageBackfill_skip (nm : VMap) (fid : String) (v : PyVal)
    (h : (v.truthy || fid = "") = true) : stageBackfill nm fid v = v := by
  unfold stageBackfill
  rw [if_pos h]

theorem stageBackfill_empty (nm : VMap) (fid : String) (v : PyVal)
    (hv : v.truthy = false) (hfid : fid ≠ "") :
    stageBackfill nm fid v =
      (firstHit nm (backfillSynonymsSpec (lowerStr fid))).getD v := by
  unfold stageBackfill backfillSynonymsSpec
  rw [if_neg (by simp [hv, hfid])]
  dsimp only
  split_ifs with h1 h2 h3 h4 h5
  · cases hk : getKey nm "circle" <;> simp [firstHit, hk]
  · exact optMatch_getD _ _
  · exact optMatch_getD _ _
  · exact optMatch_getD _ _
  · cases hk : getKey nm "date" <;> simp [firstHit, hk]
  · cases hk : getKey nm "activitytype" <;>
      cases hk2 : getKey nm "activity" <;> simp [firstHit, hk, hk2]
  · rfl

theorem stageOptions_fst_noPlaceholder (fid fname ftype : String)
    (value : PyVal) (opts : List Opt) (h : noPlaceholder value = true) :
    noPlaceholder (stageOptions fid fname ftype value opts).1 = true := by
  unfold stageOptions
  dsimp only
  split_ifs <;> first | exact h | rfl

theorem getD_vnone_noPlaceholder (m : VMap) (k : String)
    (hm : ∀ kv ∈ m, noPlaceholder kv.2 = true) :
    noPlaceholder ((getKey m k).getD vnone) = true := by
  rcases hk : getKey m k with _ | ⟨w⟩
  · rfl
  · exact getKey_prop (fun x => noPlaceholder x = true) m k w hm hk

theorem safeSet_cases (cur new : PyVal) :
    safeSet cur new = new ∨ safeSet cur new = vnone ∨
      safeSet cur new = cur := by
  unfold safeSet
  split_ifs <;> tauto

theorem safeSet_noPlaceholder (cur new : PyVal)
    (hc : noPlaceholder cur = true) (hn : noPlaceholder new = true) :
    noPlaceholder (safeSet cur new) = true := by
  rcases safeSet_cases cur new with h | h | h <;> rw [h]
  · exact hn
  · rfl
  · exact hc

theorem stageBackfill_noPlaceholder (nm : VMap) (fid : String) (v : PyVal)
    (hnm : ∀ kv ∈ nm, noPlaceholder kv.2 = true)
    (hv : noPlaceholder v = true) :
    noPlaceholder (stageBackfill nm fid v) = true := by
  by_cases hc : (v.truthy || fid = "") = true
  · rw [stageBackfill_skip nm fid v hc]
    exact hv
  · simp only [Bool.or_eq_true, decide_eq_true_eq, not_or] at hc
    rw [stageBackfill_empty nm fid v (by simp [hc.1]) hc.2]
    rcases hk : firstHit nm (backfillSynonymsSpec (lowerStr fid)) with _ | ⟨w⟩
    · exact hv
    · exact firstHit_prop (fun x => noPlaceholder x = true) nm w hnm _ hk

theorem stageLookup_noPlaceholder (vm nm fm : VMap) (fid : String) (v : PyVal)
    (hvm : ∀ kv ∈ vm, noPlaceholder kv.2 = true)
    (hnm : ∀ kv ∈ nm, noPlaceholder kv.2 = true)
    (hfm : ∀ kv ∈ fm, noPlaceholder kv.2 = true)
    (hv : noPlaceholder v = true) :
    noPlaceholder (stageLookup vm nm fm fid v) = true := by
  unfold stageLookup
  dsimp only
  split_ifs with h1 h2 h3 h4 h5
  · exact safeSet_noPlaceholder _ _ hv (getD_vnone_noPlaceholder vm fid hvm)
  · exact safeSet_noPlaceholder _ _ hv
      (getD_vnone_noPlaceholder nm (lowerStr fid) hnm)
  · exact safeSet_noPlaceholder _ _ hv
      (getD_vnone_noPlaceholder fm (stripSeps (lowerStr fid)) hfm)
  · exact hv
  · split
    · rename_i p hfind
      exact hfm p (List.mem_of_find?_eq_some hfind)
    · exact hv
  · exact hv

theorem stageExpr_noop (vm nm fm : VMap) (ftype fname : String) (v : PyVal)
    (hd : isDisplayType ftype = false) (hv : noPlaceholder v = true) :
    stageExpr vm nm fm ftype fname v = (fname, v) := by
  unfold stageExpr
  rw [if_neg (by simp [hd])]
  cases v with
  | vstr s =>
    simp only [noPlaceholder, Bool.not_eq_true'] at hv
    dsimp only
    rw [if_neg (by simp [hv])]
  | vint n => rfl
  | vbool b => rfl
  | vnone => rfl

theorem droplike_not_display (ftype : String) (hd : ftype ∈ droplikeTypes) :
    isDisplayType ftype = false := by
  simp only [droplikeTypes, List.mem_cons, List.not_mem_nil, or_false] at hd
  rcases hd with rfl | rfl | rfl <;> rfl

theorem droplike_not_date (ftype : String) (hd : ftype ∈ droplikeTypes) :
    lowerStr ftype ≠ "date" := by
  simp only [droplikeTypes, List.mem_cons, List.not_mem_nil, or_false] at hd
  rcases hd with rfl | rfl | rfl <;> decide

theorem valueInOptions_append_self (v : PyVal) (os : List Opt) :
    valueInOptions v (os ++ [⟨some v, some v⟩]) = true := by
  unfold valueInOptions
  dsimp only
  rw [Bool.or_eq_true]
  left
  rw [List.any_append]
  rw [Bool.or_eq_true]
  right
  simp [normOptStr, strDefault]

theorem stageValueInOptions_sound (ftype : String) (v : PyVal)
    (opts : List Opt) (hd : ftype ∈ droplikeTypes)
    (ho : opts.isEmpty = false) (hv : v.truthy = true) :
    valueInOptions v (stageValueInOptions ftype v opts) = true := by
  unfold stageValueInOptions
  rw [if_pos hd, if_pos (by simp [ho, hv])]
  by_cases hin : valueInOptions v opts = true
  · rw [if_pos hin]
    exact hin
  · rw [if_neg hin]
    exact valueInOptions_append_self v opts

theorem stageValueInOptions_nil (ftype : String) (v : PyVal) :
    stageValueInOptions ftype v [] = [] := by
  unfold stageValueInOptions
  split_ifs with h1 h2 <;> first | rfl | (exfalso; simp at h2)

theorem processLeaf_vio (vm : VMap) (fid fname ftype : String)
    (value : PyVal) (opts : List Opt)
    (hvm : ∀ kv ∈ vm, noPlaceholder kv.2 = true)
    (hval : noPlaceholder value = true)
    (hd : ftype ∈ droplikeTypes)
    (hv : (processLeaf vm fid fname ftype value opts).2.1.truthy = true)
    (ho : (processLeaf vm fid fname ftype value opts).2.2.isEmpty = false) :
    valueInOptions (processLeaf vm fid fname ftype value opts).2.1
      (processLeaf vm fid fname ftype value opts).2.2 = true := by
  have hnm := normMap_values (fun x => noPlaceholder x = true) vm hvm
  have hfm := fuzzyMap_values (fun x => noPlaceholder x = true) vm hvm
  have h1 : noPlaceholder (stageOptions fid fname ftype value opts).1 = true :=
    stageOptions_fst_noPlaceholder _ _ _ _ _ hval
  have h2 : noPlaceholder (stageBackfill (normMap vm) fid
      (stageOptions fid fname ftype value opts).1) = true :=
    stageBackfill_noPlaceholder _ _ _ hnm h1
  have h3 : noPlaceholder (stageLookup vm (normMap vm) (fuzzyMap vm) fid
      (stageBackfill (normMap vm) fid
        (stageOptions fid fname ftype value opts).1)) = true :=
    stageLookup_noPlaceholder _ _ _ _ _ hvm hnm hfm h2
  have hE : stageExpr vm (normMap vm) (fuzzyMap vm) ftype fname
      (stageLookup vm (normMap vm) (fuzzyMap vm) fid
        (stageBackfill (normMap vm) fid
          (stageOptions fid fname ftype value opts).1)) =
      (fname, stageLookup vm (normMap vm) (fuzzyMap vm) fid
        (stageBackfill (normMap vm) fid
          (stageOptions fid fname ftype value opts).1)) :=
    stageExpr_noop _ _ _ _ _ _ (droplike_not_display ftype hd) h3
  have hP : processLeaf vm fid fname ftype value opts =
      (fname,
       stageLookup vm (normMap vm) (fuzzyMap vm) fid
         (stageBackfill (normMap vm) fid
           (stageOptions fid fname ftype value opts).1),
       stageValueInOptions ftype
         (stageLookup vm (normMap vm) (fuzzyMap vm) fid
           (stageBackfill (normMap vm) fid
             (stageOptions fid fname ftype value opts).1))
         (stageOptions fid fname ftype value opts).2) := by
    unfold processLeaf
    dsimp only
    rw [hE]
    dsimp only
    rw [if_neg (droplike_not_date ftype hd)]
  rw [hP] at hv ho ⊢
  dsimp only at hv ho ⊢
  have hne : (stageOptions fid fname ftype value opts).2.isEmpty = false := by
    by_contra hc
    rw [Bool.not_eq_false] at hc
    rw [List.isEmpty_iff.mp hc, stageValueInOptions_nil] at ho
    simp at ho
  exact stageValueInOptions_sound ftype _ _ hd hne hv

mutual

theorem pf_vio (vm : VMap) (hvm : ∀ kv ∈ vm, noPlaceholder kv.2 = true) :
    ∀ (f : Field),
      (∀ g ∈ collectField f, noPlaceholder (Field.value g) = true) →
      ∀ g ∈ collectField (processField vm f),
        Field.ftype g ∈ droplikeTypes → (Field.value g).truthy = true →
        (Field.options g).isEmpty = false →
        valueInOptions (Field.value g) (Field.options g) = true
  | .mk fid fname ftype value opts ro ch rows => by
    intro hnp g hg hgd hgv hgo
    simp only [processField, collectField] at hg
    rcases List.mem_cons.mp hg with rfl | hg2
    · have hval : noPlaceholder value = true :=
        hnp (.mk fid fname ftype value opts ro ch rows)
          (by simp only [collectField]; exact List.mem_cons_self _ _)
      dsimp only [Field.ftype] at hgd
      dsimp only [Field.value, Field.options] at hgv hgo ⊢
      exact processLeaf_vio vm fid fname ftype value opts hvm hval hgd hgv hgo
    · rcases List.mem_append.mp hg2 with h | h
      · exact pfs_vio vm hvm ch
          (fun q hq => hnp q (by
            simp only [collectField]
            exact List.mem_cons_of_mem _ (List.mem_append.mpr (Or.inl hq))))
          g h hgd hgv hgo
      · exact pr_vio vm hvm rows
          (fun q hq => hnp q (by
            simp only [collectField]
            exact List.mem_cons_of_mem _ (List.mem_append.mpr (Or.inr hq))))
          g h hgd hgv hgo

theorem pfs_vio (vm : VMap) (hvm : ∀ kv ∈ vm, noPlaceholder kv.2 = true) :
    ∀ (fs : List Field),
      (∀ g ∈ collectFields fs, noPlaceholder (Field.value g) = true) →
      ∀ g ∈ collectFields (processFields vm fs),
        Field.ftype g ∈ droplikeTypes → (Field.value g).truthy = true →
        (Field.options g).isEmpty = false →
        valueInOptions (Field.value g) (Field.options g) = true
  | [] => by
    intro hnp g hg
    simp [processFields, collectFields] at hg
  | f :: fs => by
    intro hnp g hg hgd hgv hgo
    simp only [processFields, collectFields] at hg
    rcases List.mem_append.mp hg with h | h
    · exact pf_vio vm hvm f
        (fun q hq => hnp q (by
          simp only [collectFields]
          exact List.mem_append.mpr (Or.inl hq)))
        g h hgd hgv hgo
    · exact pfs_vio vm hvm fs
        (fun q hq => hnp q (by
          simp only [collectFields]
          exact List.mem_append.mpr (Or.inr hq)))
        g h hgd hgv hgo

theorem pr_vio (vm : VMap) (hvm : ∀ kv ∈ vm, noPlaceholder kv.2 = true) :
    ∀ (rows : List (List (List Field))),
      (∀ g ∈ collectRows rows, noPlaceholder (Field.value g) = true) →
      ∀ g ∈ collectRows (processRows vm rows),
        Field.ftype g ∈ droplikeTypes → (Field.value g).truthy = true →
        (Field.options g).isEmpty = false →
        valueInOptions (Field.value g) (Field.options g) = true
  | [] => by
    intro hnp g hg
    simp [processRows, collectRows] at hg
  | r :: rs => by
    intro hnp g hg hgd hgv hgo
    simp only [processRows, collectRows] at hg
    rcases List.mem_append.mp hg with h | h
    · exact pc_vio vm hvm r
        (fun q hq => hnp q (by
          simp only [collectRows]
          exact List.mem_append.mpr (Or.inl hq)))
        g h hgd hgv hgo
    · exact pr_vio vm hvm rs
        (fun q hq => hnp q (by
          simp only [collectRows]
          exact List.mem_append.mpr (Or.inr hq)))
        g h hgd hgv hgo

theorem pc_vio (vm : VMap) (hvm : ∀ kv ∈ vm, noPlaceholder kv.2 = true) :
    ∀ (cols : List (List Field)),
      (∀ g ∈ collectCols cols, noPlaceholder (Field.value g) = true) →
      ∀ g ∈ collectCols (processCols vm cols),
        Field.ftype g ∈ droplikeTypes → (Field.value g).truthy = true →
        (Field.options g).isEmpty = false →
        valueInOptions (Field.value g) (Field.options g) = true
  | [] => by
    intro hnp g hg
    simp [processCols, collectCols] at hg
  | c :: cs => by
    intro hnp g hg hgd hgv hgo
    simp only [processCols, collectCols] at hg
    rcases List.mem_append.mp hg with h | h
    · exact pfs_vio vm hvm c
        (fun q hq => hnp q (by
          simp only [collectCols]
          exact List.mem_append.mpr (Or.inl hq)))
        g h hgd hgv hgo
    · exact pc_vio vm hvm cs
        (fun q hq => hnp q (by
          simp only [collectCols]
          exact List.mem_append.mpr (Or.inr hq)))
        g h hgd hgv hgo

end

/-- C7: the heuristic backfill of `_populate_model_values` fills only
fields whose value is currently empty (a truthy value is never touched);
for an empty value and a non-empty field id it looks the lower-cased id up
in the spec's fixed synonym table and takes the value of the first synonym
present in the normalized ValueMap, leaving the value unchanged when none
is present; and a field with id `allotmentdate`, empty value and ValueMap
`{"allotmentdate": "2025-01-15"}` ends the whole population pass with value
`"2025-01-15"`. -/
theorem C7_heuristic_backfill :
    (∀ (nm : VMap) (fid : String) (v : PyVal), v.truthy = true →
      stageBackfill nm fid v = v) ∧
    (∀ (nm : VMap) (fid : String) (v : PyVal), v.truthy = false → fid ≠ "" →
      stageBackfill nm fid v =
        (firstHit nm (backfillSynonymsSpec (lowerStr fid))).getD v) ∧
    processField [("allotmentdate", vstr "2025-01-15")]
        (.mk "allotmentdate" "Allotment Date" "date" vnone [] false [] []) =
      .mk "allotmentdate" "Allotment Date" "date" (vstr "2025-01-15") []
        false [] [] :=
  ⟨fun nm fid v hv => stageBackfill_skip nm fid v (by simp [hv]),
   fun nm fid v hv hfid => stageBackfill_empty nm fid v hv hfid,
   rfl⟩

/-- Witness for C7: a truthy value survives the backfill untouched, and an
empty value on a circle field is filled from the `circle` variable. -/
theorem C7_heuristic_backfill_witness :
    stageBackfill [("circle", vstr "WB")] "fieldcircleid" (vstr "X") =
      vstr "X" ∧
    stageBackfill [("circle", vstr "WB")] "fieldcircleid" vnone =
      vstr "WB" := by
  constructor
  · exact C7_heuristic_backfill.1 [("circle", vstr "WB")] "fieldcircleid"
      (vstr "X") (by decide)
  · rw [C7_heuristic_backfill.2.1 [("circle", vstr "WB")] "fieldcircleid"
      vnone (by decide) (by decide)]
    rfl

/-- C2 counterexample: a dropdown whose options list stays empty keeps its
non-empty value, which then matches no option id or name — the
value-in-options step only fires when the options list is non-empty. -/
theorem C2_value_in_options_counterexample :
    ∃ g ∈ collectModel (populateModelValues []
        ⟨[Field.mk "mystery" "Mystery" "dropdown" (vstr "Hello") [] false [] []],
         []⟩),
      Field.ftype g ∈ droplikeTypes ∧ (Field.value g).truthy = true ∧
        valueInOptions (Field.value g) (Field.options g) = false := by
  refine ⟨Field.mk "mystery" "Mystery" "dropdown" (vstr "Hello") [] false [] [],
    ?_, ?_, ?_, ?_⟩
  · rw [show collectModel (populateModelValues []
        ⟨[Field.mk "mystery" "Mystery" "dropdown" (vstr "Hello") [] false [] []],
         []⟩) =
        [Field.mk "mystery" "Mystery" "dropdown" (vstr "Hello") [] false [] []]
      from rfl]
    exact List.mem_singleton.mpr rfl
  · decide
  · decide
  · rfl

/-- C2 (amended): when every ValueMap value and every field value of the
input tree is free of the `$\x7b` placeholder marker, every field of a
droplike type anywhere in the populated form tree that has a truthy value
AND a non-empty options list has its stripped, case-folded value among the
stripped, case-folded option ids or option names. -/
theorem C2_value_in_options (vm : VMap) (m : FormModel)
    (hvm : ∀ kv ∈ vm, noPlaceholder kv.2 = true)
    (hm : ∀ g ∈ collectModel m, noPlaceholder (Field.value g) = true)
    (g : Field) (hg : g ∈ collectModel (populateModelValues vm m))
    (hd : Field.ftype g ∈ droplikeTypes)
    (hv : (Field.value g).truthy = true)
    (ho : (Field.options g).isEmpty = false) :
    valueInOptions (Field.value g) (Field.options g) = true := by
  unfold collectModel populateModelValues at hg
  dsimp only at hg
  rcases List.mem_append.mp hg with h | h
  · exact pfs_vio vm hvm m.fields
      (fun q hq => hm q (List.mem_append.mpr (Or.inl hq))) g h hd hv ho
  · exact pr_vio vm hvm m.rows
      (fun q hq => hm q (List.mem_append.mpr (Or.inr hq))) g h hd hv ho

/-- Witness for C2: a dropdown bound to the value `maybe` (absent from its
single `Yes` option) ends with a synthetic matching option appended. -/
theorem C2_value_in_options_witness :
    valueInOptions (vstr "maybe")
      [⟨some (vstr "Yes"), some (vstr "Yes")⟩,
       ⟨some (vstr "maybe"), some (vstr "maybe")⟩] = true := by
  have hg : Field.mk "choice" "Choice" "dropdown" (vstr "maybe")
      [⟨some (vstr "Yes"), some (vstr "Yes")⟩,
       ⟨some (vstr "maybe"), some (vstr "maybe")⟩] false [] [] ∈
      collectModel (populateModelValues [("choice", vstr "maybe")]
        ⟨[Field.mk "choice" "Choice" "dropdown" vnone
            [⟨some (vstr "Yes"), some (vstr "Yes")⟩] false [] []], []⟩) := by
    rw [show collectModel (populateModelValues [("choice", vstr "maybe")]
        ⟨[Field.mk "choice" "Choice" "dropdown" vnone
            [⟨some (vstr "Yes"), some (vstr "Yes")⟩] false [] []], []⟩) =
        [Field.mk "choice" "Choice" "dropdown" (vstr "maybe")
          [⟨some (vstr "Yes"), some (vstr "Yes")⟩,
           ⟨some (vstr "maybe"), some (vstr "maybe")⟩] false [] []] from rfl]
    exact List.mem_singleton.mpr rfl
  exact C2_value_in_options [("choice", vstr "maybe")]
    ⟨[Field.mk "choice" "Choice" "dropdown" vnone
        [⟨some (vstr "Yes"), some (vstr "Yes")⟩] false [] []], []⟩
    (by decide) (by decide) _ hg (by decide) (by decide) (by decide)

/-- Witness for the C3 amended theorem: a concrete date field overrides. -/
theorem C3_flat_snapshot_merge_witness :
    getKey (flatMergeStep [("allotmentdate", vstr "untouched")]
        ⟨"allotmentdate", "date", vstr "15-01-2025"⟩) "allotmentdate" =
      some (vstr "15-01-2025") :=
  (C3_flat_snapshot_merge [("allotmentdate", vstr "untouched")]
      ⟨"allotmentdate", "date", vstr "15-01-2025"⟩).1
    (by decide) (by decide) (by decide) (by decide)

end QED
